import Mathlib

/-!
# SimpleOrderBook: the order listener

A shallow embedding of `src/SimpleOrderBook/order_listener.{h,cc}`.

Conventions of the embedding.

* `int` and `long long` values are `Int`: the callbacks compute exact sums and
  differences, which are those of the source as long as they stay within the
  machine ranges; a theorem about a difference that can leave the range of
  `int` says so in a hypothesis.  The one place where the source mixes signed
  and unsigned arithmetic (`mOrderTimeQueue.size() > mNoOfRequests`) is
  modelled with the explicit conversion `toSizeT`.
* `double` values (prices, order values, seconds) are exact rationals in the
  callbacks of `OrderListener`: these are the callbacks in exact arithmetic.
  The section on the arithmetic of the machine has the same callbacks with
  every `double` operation rounded to binary64, and the evaluations that show
  where the two differ.
* `std::chrono::steady_clock::now()` is a parameter of every function that
  reads the clock; a clock reading is a rational number of seconds.
* `std::unordered_map` is an association list whose keys are unique in every
  state the listener can reach; iteration order is never observed by the
  source.
* `assert` does not change the state: every callback returns the state of a
  build in which assertions are compiled out together with a `Diagnostic`
  telling whether an assertion of the source is violated by the call.
-/

namespace SimpleOrderBook

/-! ## `std::unordered_map` -/

namespace UMap

/-- Lookup of a key, `unordered_map::find`; `none` stands for `end()`. -/
def find {α : Type} : List (Int × α) → Int → Option α
  | [], _ => none
  | (k, v) :: rest, key => if k = key then some v else find rest key

/-- Insertion without overwriting, `unordered_map::insert`: an entry whose key
is already present is left alone. -/
def insert {α : Type} : List (Int × α) → Int → α → List (Int × α)
  | [], key, v => [(key, v)]
  | (k, x) :: rest, key, v =>
    if k = key then (k, x) :: rest else (k, x) :: insert rest key v

/-- Removal of the entry of a key, `unordered_map::erase`. -/
def erase {α : Type} : List (Int × α) → Int → List (Int × α)
  | [], _ => []
  | (k, x) :: rest, key => if k = key then erase rest key else (k, x) :: erase rest key

/-- Assignment through `operator[]`: `m[key] = v` overwrites or creates. -/
def assign {α : Type} : List (Int × α) → Int → α → List (Int × α)
  | [], key, v => [(key, v)]
  | (k, x) :: rest, key, v =>
    if k = key then (k, v) :: rest else (k, x) :: assign rest key v

/-- In-place update of the value stored under a key (a write through an
iterator obtained from `find`). -/
def modify {α : Type} : List (Int × α) → Int → (α → α) → List (Int × α)
  | [], _, _ => []
  | (k, x) :: rest, key, f =>
    if k = key then (k, f x) :: rest else (k, x) :: modify rest key f

end UMap

/-! ## Data model -/

/-- Side character of a bid, `BID_SIDE`. -/
def BID_SIDE : Char := 'B'

/-- Side character of an offer, `OFFER_SIDE`. -/
def OFFER_SIDE : Char := 'O'

/-- Class `Order`. -/
structure Order where
  mPrice : ℚ
  mId : Int
  mQuantity : Int
  mSide : Char
  deriving DecidableEq

/-- Setter `Order::SetQuantity`. -/
def Order.SetQuantity (o : Order) (val : Int) : Order :=
  { o with mQuantity := val }

/-- Data members of class `OrderListener`. -/
structure OrderListener where
  mNoOfRequests : Int
  mNoOfSeconds : Int
  mOrderTimeQueue : List ℚ
  mOrderMap : List (Int × Order)
  mNetFilledQuantity : Int
  mBidConfirmedOrderValue : ℚ
  mOfferConfirmedOrderValue : ℚ
  mMinBidPendingOrderValue : ℚ
  mMinOfferPendingOrderValue : ℚ
  mMaxBidPendingOrderValue : ℚ
  mMaxOfferPendingOrderValue : ℚ
  mOrderModificationMap : List (Int × Int)
  deriving DecidableEq

/-- What a callback reports besides its effect on the state. -/
inductive Diagnostic where
  /-- Nothing is reported. -/
  | ok
  /-- The order id is not in the order table: a line on `std::cerr` followed
  by `assert(false)` and `return`. -/
  | orderIdNotFound
  /-- The condition of an `assert` is false; nothing is logged. -/
  | assertionViolated
  deriving DecidableEq

/-- Constructor `OrderListener::OrderListener`. -/
def OrderListener.ctor (noOfRequests noOfSeconds : Int) : OrderListener where
  mNoOfRequests := noOfRequests
  mNoOfSeconds := noOfSeconds
  mOrderTimeQueue := []
  mOrderMap := []
  mNetFilledQuantity := 0
  mBidConfirmedOrderValue := 0
  mOfferConfirmedOrderValue := 0
  mMinBidPendingOrderValue := 0
  mMinOfferPendingOrderValue := 0
  mMaxBidPendingOrderValue := 0
  mMaxOfferPendingOrderValue := 0
  mOrderModificationMap := []

/-! ## Request rate -/

/-- Conversion of an `int` to `size_t` (64 bits). -/
def toSizeT (n : Int) : Nat := (n % 2 ^ 64).toNat

/-- The loop of `DeleteOldTimeStamps`: entries are popped from the front as long
as the front is more than `noOfSeconds` seconds before `currentTime`.  The
elapsed seconds are exact here; `Machine.popOldTimeStamps` has the conversion
of the tick count to `double`. -/
def popOldTimeStamps (noOfSeconds : Int) (currentTime : ℚ) : List ℚ → List ℚ
  | [] => []
  | oldTime :: rest =>
    if currentTime - oldTime > (noOfSeconds : ℚ) then
      popOldTimeStamps noOfSeconds currentTime rest
    else
      oldTime :: rest

/-- Method `OrderListener::DeleteOldTimeStamps`. -/
def OrderListener.DeleteOldTimeStamps (s : OrderListener) (currentTime : ℚ) : OrderListener :=
  { s with mOrderTimeQueue := popOldTimeStamps s.mNoOfSeconds currentTime s.mOrderTimeQueue }

/-- Method `OrderListener::UpdateRequestRate`; `currentTime` is the clock
reading taken by the call. -/
def OrderListener.UpdateRequestRate (s : OrderListener) (currentTime : ℚ) : OrderListener :=
  let s1 := s.DeleteOldTimeStamps currentTime
  { s1 with mOrderTimeQueue := s1.mOrderTimeQueue ++ [currentTime] }

/-- Method `OrderListener::IsRateExceeded`; `currentTime` is the clock reading
taken by the call.  The comparison is the unsigned one of the source. -/
def OrderListener.IsRateExceeded (s : OrderListener) (currentTime : ℚ) : OrderListener × Bool :=
  let s1 := s.DeleteOldTimeStamps currentTime
  (s1, decide (s1.mOrderTimeQueue.length > toSizeT s1.mNoOfRequests))

/-- Method `OrderListener::TimeToWait`.  `checkTime` is the clock reading taken
inside `IsRateExceeded`, `currentTime` the one taken afterwards.  `pos` is
`size() - mNoOfRequests`, computed only when `size()` is the larger of the two
(the cast to `int` is the identity for queues shorter than `2^31`).  The result
is `none` when `mOrderTimeQueue[pos]` is outside the queue, which the source
leaves undefined. -/
def OrderListener.TimeToWait (s : OrderListener) (checkTime currentTime : ℚ) :
    OrderListener × Option ℚ :=
  let r := s.IsRateExceeded checkTime
  if r.2 = false then
    (r.1, some 0)
  else
    let pos := r.1.mOrderTimeQueue.length - toSizeT r.1.mNoOfRequests
    match r.1.mOrderTimeQueue.get? pos with
    | none => (r.1, none)
    | some t =>
      let elapsedSeconds := currentTime - t
      (r.1, some ((r.1.mNoOfSeconds : ℚ) - elapsedSeconds))

/-! ## Order callbacks -/

/-- Method `OrderListener::OnInsertOrderRequest`, with the order value computed
in exact arithmetic; `Machine.OnInsertOrderRequest` rounds as `double` does. -/
def OrderListener.OnInsertOrderRequest (s : OrderListener) (currentTime : ℚ)
    (id : Int) (side : Char) (price : ℚ) (quantity : Int) : OrderListener × Diagnostic :=
  let s1 := s.UpdateRequestRate currentTime
  let order : Order := { mPrice := price, mId := id, mQuantity := quantity, mSide := side }
  let s2 := { s1 with mOrderMap := UMap.insert s1.mOrderMap id order }
  let value : ℚ := price * (quantity : ℚ)
  let d := if side = BID_SIDE ∨ side = OFFER_SIDE then Diagnostic.ok
           else Diagnostic.assertionViolated
  if side = BID_SIDE then
    ({ s2 with mMaxBidPendingOrderValue := s2.mMaxBidPendingOrderValue + value }, d)
  else
    ({ s2 with mMaxOfferPendingOrderValue := s2.mMaxOfferPendingOrderValue + value }, d)

/-- Method `OrderListener::OnReplaceOrderRequest`. -/
def OrderListener.OnReplaceOrderRequest (s : OrderListener) (currentTime : ℚ)
    (oldId newId deltaQuantity : Int) : OrderListener × Diagnostic :=
  let s1 := s.UpdateRequestRate currentTime
  match UMap.find s1.mOrderMap oldId with
  | none => (s1, Diagnostic.orderIdNotFound)
  | some old =>
    let price := old.mPrice
    let value : ℚ := (deltaQuantity : ℚ) * price
    let side := old.mSide
    let s2 :=
      if side = BID_SIDE then
        { s1 with mMaxBidPendingOrderValue := s1.mMaxBidPendingOrderValue + value }
      else if side = OFFER_SIDE then
        { s1 with mMaxOfferPendingOrderValue := s1.mMaxOfferPendingOrderValue + value }
      else s1
    let s3 := { s2 with
      mOrderModificationMap := UMap.assign s2.mOrderModificationMap newId oldId }
    let newOrder : Order :=
      { mPrice := price, mId := newId, mQuantity := deltaQuantity, mSide := side }
    ({ s3 with mOrderMap := UMap.insert s3.mOrderMap newId newOrder }, Diagnostic.ok)

/-- Method `OrderListener::OnRequestAcknowledged`, with the order value
computed in exact arithmetic; `Machine.OnRequestAcknowledged` rounds as
`double` does. -/
def OrderListener.OnRequestAcknowledged (s : OrderListener) (id : Int) :
    OrderListener × Diagnostic :=
  match UMap.find s.mOrderMap id with
  | none => (s, Diagnostic.orderIdNotFound)
  | some o =>
    let value : ℚ := (o.mQuantity : ℚ) * o.mPrice
    let side := o.mSide
    let s1 :=
      if side = BID_SIDE then
        { s with
          mBidConfirmedOrderValue := s.mBidConfirmedOrderValue + value
          mMinBidPendingOrderValue := s.mMinBidPendingOrderValue + value }
      else if side = OFFER_SIDE then
        { s with
          mOfferConfirmedOrderValue := s.mOfferConfirmedOrderValue + value
          mMinOfferPendingOrderValue := s.mMinOfferPendingOrderValue + value }
      else s
    match UMap.find s1.mOrderModificationMap id with
    | none => (s1, Diagnostic.ok)
    | some oldId =>
      let s2 := { s1 with mOrderModificationMap := UMap.erase s1.mOrderModificationMap id }
      match UMap.find s2.mOrderMap oldId with
      | none => (s2, Diagnostic.ok)
      | some _ => ({ s2 with mOrderMap := UMap.erase s2.mOrderMap oldId }, Diagnostic.ok)

/-- Method `OrderListener::OnRequestRejected`. -/
def OrderListener.OnRequestRejected (s : OrderListener) (id : Int) :
    OrderListener × Diagnostic :=
  match UMap.find s.mOrderMap id with
  | none => (s, Diagnostic.orderIdNotFound)
  | some o =>
    let value : ℚ := (o.mQuantity : ℚ) * o.mPrice
    let side := o.mSide
    let s1 :=
      if side = BID_SIDE then
        { s with mMaxBidPendingOrderValue := s.mMaxBidPendingOrderValue - value }
      else if side = OFFER_SIDE then
        { s with mMaxOfferPendingOrderValue := s.mMaxOfferPendingOrderValue - value }
      else s
    let s2 := { s1 with mOrderMap := UMap.erase s1.mOrderMap id }
    match UMap.find s2.mOrderModificationMap id with
    | none => (s2, Diagnostic.ok)
    | some _ =>
      let s3 := { s2 with mOrderModificationMap := UMap.erase s2.mOrderModificationMap id }
      match UMap.find s3.mOrderMap id with
      | none => (s3, Diagnostic.ok)
      | some _ => ({ s3 with mOrderMap := UMap.erase s3.mOrderMap id }, Diagnostic.ok)

/-- Method `OrderListener::OnOrderFilled`, with the order value computed in
exact arithmetic; `Machine.OnOrderFilled` rounds as `double` does.  The
remaining quantity is the exact difference, which is the `int` difference of
the source when it lies in the range of `int`. -/
def OrderListener.OnOrderFilled (s : OrderListener) (id : Int) (quantityFilled : Int) :
    OrderListener × Diagnostic :=
  match UMap.find s.mOrderMap id with
  | none => (s, Diagnostic.orderIdNotFound)
  | some o =>
    let d := if quantityFilled ≤ o.mQuantity then Diagnostic.ok
             else Diagnostic.assertionViolated
    let value : ℚ := (quantityFilled : ℚ) * o.mPrice
    let side := o.mSide
    let s1 :=
      if side = BID_SIDE then
        { s with
          mNetFilledQuantity := s.mNetFilledQuantity + quantityFilled
          mMinBidPendingOrderValue := s.mMinBidPendingOrderValue - value
          mMaxBidPendingOrderValue := s.mMaxBidPendingOrderValue - value
          mBidConfirmedOrderValue := s.mBidConfirmedOrderValue - value }
      else if side = OFFER_SIDE then
        { s with
          mNetFilledQuantity := s.mNetFilledQuantity - quantityFilled
          mMinOfferPendingOrderValue := s.mMinOfferPendingOrderValue - value
          mMaxOfferPendingOrderValue := s.mMaxOfferPendingOrderValue - value
          mOfferConfirmedOrderValue := s.mOfferConfirmedOrderValue - value }
      else s
    let remaining := o.mQuantity - quantityFilled
    let s2 := { s1 with
      mOrderMap := UMap.modify s1.mOrderMap id (fun x => x.SetQuantity remaining) }
    if remaining = 0 then
      ({ s2 with mOrderMap := UMap.erase s2.mOrderMap id }, d)
    else
      (s2, d)

/-! ## Views of the state and event sequences -/

/-- Confirmed order value of a side: the field of that side. -/
def OrderListener.ConfirmedOrderValue (s : OrderListener) (side : Char) : ℚ :=
  if side = BID_SIDE then s.mBidConfirmedOrderValue else s.mOfferConfirmedOrderValue

/-- Minimum pending order value of a side: the field of that side. -/
def OrderListener.MinPendingOrderValue (s : OrderListener) (side : Char) : ℚ :=
  if side = BID_SIDE then s.mMinBidPendingOrderValue else s.mMinOfferPendingOrderValue

/-- Maximum pending order value of a side: the field of that side. -/
def OrderListener.MaxPendingOrderValue (s : OrderListener) (side : Char) : ℚ :=
  if side = BID_SIDE then s.mMaxBidPendingOrderValue else s.mMaxOfferPendingOrderValue

/-- A call of one of the five callbacks; the two requests carry the clock
reading their call takes. -/
inductive Event where
  | insertRequest (currentTime : ℚ) (id : Int) (side : Char) (price : ℚ) (quantity : Int)
  | replaceRequest (currentTime : ℚ) (oldId newId deltaQuantity : Int)
  | acknowledged (id : Int)
  | rejected (id : Int)
  | filled (id : Int) (quantityFilled : Int)
  deriving DecidableEq

/-- The callback an event stands for, applied to a state. -/
def step (s : OrderListener) : Event → OrderListener × Diagnostic
  | .insertRequest t id side price quantity => s.OnInsertOrderRequest t id side price quantity
  | .replaceRequest t oldId newId deltaQuantity =>
    s.OnReplaceOrderRequest t oldId newId deltaQuantity
  | .acknowledged id => s.OnRequestAcknowledged id
  | .rejected id => s.OnRequestRejected id
  | .filled id quantityFilled => s.OnOrderFilled id quantityFilled

/-- State after a sequence of events. -/
def run (s : OrderListener) : List Event → OrderListener
  | [] => s
  | e :: es => run (step s e).1 es

/-- Diagnostics of a sequence of events, one per event. -/
def diagnostics (s : OrderListener) : List Event → List Diagnostic
  | [] => []
  | e :: es => (step s e).2 :: diagnostics (step s e).1 es

/-- Clock reading taken by a request; the three market confirmations read no
clock. -/
def Event.clock : Event → List ℚ
  | .insertRequest t _ _ _ _ => [t]
  | .replaceRequest t _ _ _ => [t]
  | .acknowledged _ => []
  | .rejected _ => []
  | .filled _ _ => []

/-- A call of a public method that changes the listener: a callback or one of
the two request rate queries, with the clock readings the call takes. -/
inductive Call where
  | event (e : Event)
  | isRateExceeded (currentTime : ℚ)
  | timeToWait (checkTime currentTime : ℚ)
  deriving DecidableEq

/-- Clock readings taken by a call, in the order they are taken. -/
def Call.clock : Call → List ℚ
  | .event e => e.clock
  | .isRateExceeded t => [t]
  | .timeToWait t1 t2 => [t1, t2]

/-- Times of the submissions among a call: the clock reading of an
`OnInsertOrderRequest` or `OnReplaceOrderRequest`. -/
def Call.submission : Call → List ℚ
  | .event e => e.clock
  | .isRateExceeded _ => []
  | .timeToWait _ _ => []

/-- Clock readings of a sequence of calls, in the order they are taken. -/
def clockReadings : List Call → List ℚ
  | [] => []
  | c :: cs => c.clock ++ clockReadings cs

/-- Submission times of a sequence of calls, in order. -/
def submissionTimes : List Call → List ℚ
  | [] => []
  | c :: cs => c.submission ++ submissionTimes cs

/-- State after a call. -/
def exec (s : OrderListener) : Call → OrderListener
  | .event e => (step s e).1
  | .isRateExceeded t => (s.IsRateExceeded t).1
  | .timeToWait t1 t2 => (s.TimeToWait t1 t2).1

/-- State after a sequence of calls. -/
def execAll (s : OrderListener) (cs : List Call) : OrderListener :=
  cs.foldl exec s

/-- Sum of price times remaining quantity over the orders of a side that are in
an order table: the confirmed order value of the class documentation, read off
the table. -/
def orderTableValue (m : List (Int × Order)) (side : Char) : ℚ :=
  ((m.filter (fun e => decide (e.2.mSide = side))).map
    (fun e => e.2.mPrice * (e.2.mQuantity : ℚ))).sum

/-- An event is not a second replacement of an order: if it is a replace
request, no entry of the replacement link table under another new id holds its
old id. -/
def replacesOnce (s : OrderListener) : Event → Bool
  | .replaceRequest _ oldId newId _ =>
    s.mOrderModificationMap.all (fun e => decide (e.2 = oldId → e.1 = newId))
  | _ => true

/-- No event of a sequence, applied in order from a state, is a second
replacement of an order whose replacement is still pending. -/
def replacesOnceAll (s : OrderListener) : List Event → Bool
  | [] => true
  | e :: es => replacesOnce s e && replacesOnceAll (step s e).1 es

/-- Every `timeToWait` call of a sequence, applied in order from a state, reads
`mOrderTimeQueue[pos]` inside the queue: its result is not `none`. -/
def readsInsideQueue (s : OrderListener) : List Call → Bool
  | [] => true
  | c :: cs =>
    (match c with
      | .timeToWait t1 t2 => (s.TimeToWait t1 t2).2.isSome
      | _ => true) && readsInsideQueue (exec s c) cs

/-! ## The arithmetic of the machine

The definitions above compute in exact rationals.  The source computes order
values and elapsed seconds in `double`.  The callbacks below are the same code
with every `double` operation passed through the rounding of an `Arithmetic`
and with clock readings counted in ticks of `steady_clock::period`; with
`Arithmetic.exact` they are the definitions above, with `Arithmetic.binary64`
they are the compiled program. -/

namespace Binary64

/-- The power `2^e` for an integer exponent. -/
def pow2 (e : Int) : ℚ :=
  if 0 ≤ e then ((2 ^ e.toNat : Nat) : ℚ) else 1 / ((2 ^ (-e).toNat : Nat) : ℚ)

/-- Halving loop of `log2Floor`; `fuel` bounds the number of halvings. -/
def log2Floor.loop : Nat → Nat → Nat
  | 0, _ => 0
  | fuel + 1, n => if n < 2 then 0 else log2Floor.loop fuel (n / 2) + 1

/-- For a positive natural number `n`, the exponent `k` with
`2^k <= n < 2^(k+1)`: the number of times `n` can be halved before it is 1. -/
def log2Floor (n : Nat) : Nat :=
  log2Floor.loop n n

/-- For a positive rational `a`, the exponent `e` with `2^e <= a < 2^(e+1)`. The
quotient of the numerator by the denominator lies between `2^(e0 - 1)` and
`2^(e0 + 1)` for the difference `e0` of their exponents. -/
def binade (a : ℚ) : Int :=
  let e0 : Int := (log2Floor a.num.natAbs : Int) - (log2Floor a.den : Int)
  if pow2 e0 ≤ a then e0 else e0 - 1

/-- Rounding of a real number to the nearest IEEE 754 binary64 number, ties to
the even significand: 53 bits of significand, the spacing of the subnormal
numbers below `2^(-1022)`.  Overflow to infinity is not modelled: the function
is the rounding of the machine for arguments below `2^1024` in absolute
value. -/
def round (x : ℚ) : ℚ :=
  if x = 0 then 0
  else
    let a := if x < 0 then -x else x
    let e := max (binade a) (-1022)
    let ulp := pow2 (e - 52)
    let q := a / ulp
    let f : Int := Int.floor q
    let n : Int :=
      if q - (f : ℚ) < 1 / 2 then f
      else if 1 / 2 < q - (f : ℚ) then f + 1
      else if f % 2 = 0 then f
      else f + 1
    if x < 0 then -((n : ℚ) * ulp) else (n : ℚ) * ulp

end Binary64

/-- How the machine computes: the rounding applied to the exact result of every
`double` operation and conversion, and the ratio `num / den` of
`std::chrono::steady_clock::period`, which is the length of a clock tick in
seconds. -/
structure Arithmetic where
  fl : ℚ → ℚ
  periodNum : Nat
  periodDen : Nat

/-- Exact arithmetic, with a clock that ticks in seconds. -/
def Arithmetic.exact : Arithmetic where
  fl := id
  periodNum := 1
  periodDen := 1

/-- The arithmetic of `double` with a clock that ticks in nanoseconds
(`steady_clock::period` is `std::nano` in libstdc++, libc++ and the Microsoft
library). -/
def Arithmetic.binary64 : Arithmetic where
  fl := Binary64.round
  periodNum := 1
  periodDen := 1000000000

namespace Machine

/-- The loop of `DeleteOldTimeStamps`; clock readings are tick counts.  The
tick count `(currentTime - oldTime).count() * period::num` is an integer, which
the division by `static_cast<double>(period::den)` converts to `double`. -/
def popOldTimeStamps (a : Arithmetic) (noOfSeconds : Int) (currentTime : ℚ) :
    List ℚ → List ℚ
  | [] => []
  | oldTime :: rest =>
    if a.fl (a.fl ((currentTime - oldTime) * (a.periodNum : ℚ)) / a.fl (a.periodDen : ℚ)) >
        (noOfSeconds : ℚ) then
      popOldTimeStamps a noOfSeconds currentTime rest
    else
      oldTime :: rest

/-- Method `OrderListener::DeleteOldTimeStamps`. -/
def DeleteOldTimeStamps (a : Arithmetic) (s : OrderListener) (currentTime : ℚ) :
    OrderListener :=
  { s with
    mOrderTimeQueue := popOldTimeStamps a s.mNoOfSeconds currentTime s.mOrderTimeQueue }

/-- Method `OrderListener::UpdateRequestRate`. -/
def UpdateRequestRate (a : Arithmetic) (s : OrderListener) (currentTime : ℚ) :
    OrderListener :=
  let s1 := DeleteOldTimeStamps a s currentTime
  { s1 with mOrderTimeQueue := s1.mOrderTimeQueue ++ [currentTime] }

/-- Method `OrderListener::IsRateExceeded`. -/
def IsRateExceeded (a : Arithmetic) (s : OrderListener) (currentTime : ℚ) :
    OrderListener × Bool :=
  let s1 := DeleteOldTimeStamps a s currentTime
  (s1, decide (s1.mOrderTimeQueue.length > toSizeT s1.mNoOfRequests))

/-- Method `OrderListener::OnInsertOrderRequest`. -/
def OnInsertOrderRequest (a : Arithmetic) (s : OrderListener) (currentTime : ℚ)
    (id : Int) (side : Char) (price : ℚ) (quantity : Int) : OrderListener × Diagnostic :=
  let s1 := UpdateRequestRate a s currentTime
  let order : Order := { mPrice := price, mId := id, mQuantity := quantity, mSide := side }
  let s2 := { s1 with mOrderMap := UMap.insert s1.mOrderMap id order }
  let value : ℚ := a.fl (price * (quantity : ℚ))
  let d := if side = BID_SIDE ∨ side = OFFER_SIDE then Diagnostic.ok
           else Diagnostic.assertionViolated
  if side = BID_SIDE then
    ({ s2 with mMaxBidPendingOrderValue := a.fl (s2.mMaxBidPendingOrderValue + value) }, d)
  else
    ({ s2 with mMaxOfferPendingOrderValue := a.fl (s2.mMaxOfferPendingOrderValue + value) }, d)

/-- Method `OrderListener::OnRequestAcknowledged`. -/
def OnRequestAcknowledged (a : Arithmetic) (s : OrderListener) (id : Int) :
    OrderListener × Diagnostic :=
  match UMap.find s.mOrderMap id with
  | none => (s, Diagnostic.orderIdNotFound)
  | some o =>
    let value : ℚ := a.fl ((o.mQuantity : ℚ) * o.mPrice)
    let side := o.mSide
    let s1 :=
      if side = BID_SIDE then
        { s with
          mBidConfirmedOrderValue := a.fl (s.mBidConfirmedOrderValue + value)
          mMinBidPendingOrderValue := a.fl (s.mMinBidPendingOrderValue + value) }
      else if side = OFFER_SIDE then
        { s with
          mOfferConfirmedOrderValue := a.fl (s.mOfferConfirmedOrderValue + value)
          mMinOfferPendingOrderValue := a.fl (s.mMinOfferPendingOrderValue + value) }
      else s
    match UMap.find s1.mOrderModificationMap id with
    | none => (s1, Diagnostic.ok)
    | some oldId =>
      let s2 := { s1 with mOrderModificationMap := UMap.erase s1.mOrderModificationMap id }
      match UMap.find s2.mOrderMap oldId with
      | none => (s2, Diagnostic.ok)
      | some _ => ({ s2 with mOrderMap := UMap.erase s2.mOrderMap oldId }, Diagnostic.ok)

/-- Method `OrderListener::OnOrderFilled`. -/
def OnOrderFilled (a : Arithmetic) (s : OrderListener) (id : Int) (quantityFilled : Int) :
    OrderListener × Diagnostic :=
  match UMap.find s.mOrderMap id with
  | none => (s, Diagnostic.orderIdNotFound)
  | some o =>
    let d := if quantityFilled ≤ o.mQuantity then Diagnostic.ok
             else Diagnostic.assertionViolated
    let value : ℚ := a.fl ((quantityFilled : ℚ) * o.mPrice)
    let side := o.mSide
    let s1 :=
      if side = BID_SIDE then
        { s with
          mNetFilledQuantity := s.mNetFilledQuantity + quantityFilled
          mMinBidPendingOrderValue := a.fl (s.mMinBidPendingOrderValue - value)
          mMaxBidPendingOrderValue := a.fl (s.mMaxBidPendingOrderValue - value)
          mBidConfirmedOrderValue := a.fl (s.mBidConfirmedOrderValue - value) }
      else if side = OFFER_SIDE then
        { s with
          mNetFilledQuantity := s.mNetFilledQuantity - quantityFilled
          mMinOfferPendingOrderValue := a.fl (s.mMinOfferPendingOrderValue - value)
          mMaxOfferPendingOrderValue := a.fl (s.mMaxOfferPendingOrderValue - value)
          mOfferConfirmedOrderValue := a.fl (s.mOfferConfirmedOrderValue - value) }
      else s
    let remaining := o.mQuantity - quantityFilled
    let s2 := { s1 with
      mOrderMap := UMap.modify s1.mOrderMap id (fun x => x.SetQuantity remaining) }
    if remaining = 0 then
      ({ s2 with mOrderMap := UMap.erase s2.mOrderMap id }, d)
    else
      (s2, d)

end Machine

end SimpleOrderBook

/-!
# CrackFreeWalls

A shallow embedding of `src/CrackFreeWalls/crack_free_walls.cc`.

Conventions of the embedding.

* `std::vector` is `List`; positions and widths (`int`) are `Int`; loop counters
  and the layer indices stored in the compatibility table are natural numbers.
* `unsigned long long` arithmetic is arithmetic modulo `2^64`.
* An access outside a vector is undefined in the source.  The defaults taken
  there by the accessors of the model (`getD`, and an update that does nothing)
  are reached by no input the theorems below are about.
-/

namespace CrackFreeWalls

/-- Width of the small brick, `BRICK_WIDTH_SMALL`. -/
def BRICK_WIDTH_SMALL : Int := 2

/-- Width of the big brick, `BRICK_WIDTH_BIG`. -/
def BRICK_WIDTH_BIG : Int := 3

/-- The `while` loop of `IsHavingCrack` on the two suffixes still ahead of the
iterators.  Every iteration advances one iterator or returns, so the loop runs
at most `layerPos1.size() + layerPos2.size()` times; `fuel` bounds the number of
iterations. -/
def IsHavingCrack.loop : Nat → List Int → List Int → Bool
  | 0, _, _ => false
  | _ + 1, [], _ => false
  | _ + 1, _ :: _, [] => false
  | fuel + 1, a :: rest1, b :: rest2 =>
    if a < b then IsHavingCrack.loop fuel rest1 (b :: rest2)
    else if b < a then IsHavingCrack.loop fuel (a :: rest1) rest2
    else true

/-- Function `IsHavingCrack`. -/
def IsHavingCrack (layerPos1 layerPos2 : List Int) : Bool :=
  IsHavingCrack.loop (layerPos1.length + layerPos2.length) layerPos1 layerPos2

/-- Member `std::vector::resize(n, x)`. -/
def resize {α : Type} (v : List α) (n : Nat) (x : α) : List α :=
  v.take n ++ List.replicate (n - v.length) x

/-- Statement `table[i].push_back(x)`. -/
def pushBackAt : List (List Nat) → Nat → Nat → List (List Nat)
  | [], _, _ => []
  | r :: rs, 0, x => (r ++ [x]) :: rs
  | r :: rs, i + 1, x => r :: pushBackAt rs i x

/-- Function `GenerateCompatibleLayers`; the result is the value of the output
parameter `compatibleLayers` after the call. -/
def GenerateCompatibleLayers (allPossibleLayers : List (List Int))
    (compatibleLayers : List (List Nat)) : List (List Nat) :=
  let lenOfLayers := allPossibleLayers.length
  let table := resize compatibleLayers lenOfLayers []
  (List.range lenOfLayers).foldl
    (fun table i =>
      (List.range' (i + 1) (lenOfLayers - (i + 1))).foldl
        (fun table j =>
          if IsHavingCrack (allPossibleLayers.getD i []) (allPossibleLayers.getD j []) = false then
            pushBackAt (pushBackAt table i j) j i
          else table)
        table)
    table

/-- Statement `row[j] += v` on a row of `unsigned long long`. -/
def Calculate.addAt : List Nat → Nat → Nat → List Nat
  | [], _, _ => []
  | x :: xs, 0, v => ((x + v) % 2 ^ 64) :: xs
  | x :: xs, j + 1, v => x :: Calculate.addAt xs j v

/-- The loop of `Calculate` over `i` for a layer `h > 0`: `row` is `layers[h]`
before the loop. -/
def Calculate.fillRow (layerUnder : List Nat) (compatibleLayers : List (List Nat))
    (row : List Nat) : List Nat :=
  (List.range layerUnder.length).foldl
    (fun row i =>
      if layerUnder.getD i 0 > 0 then
        (compatibleLayers.getD i []).foldl
          (fun row j => Calculate.addAt row j (layerUnder.getD i 0)) row
      else row)
    row

/-- The vector `layers[h]` of `Calculate` after iteration `h` of the loop over
the layers of the wall, for `size` possible layers. -/
def Calculate.row (size : Nat) (compatibleLayers : List (List Nat)) : Nat → List Nat
  | 0 => List.replicate size 1
  | h + 1 =>
    Calculate.fillRow (Calculate.row size compatibleLayers h) compatibleLayers
      (List.replicate size 0)

/-- Function `Calculate`.  The result is `none` for `height = 0`, where the
source reads `layers[height - 1]` of an empty vector. -/
def Calculate (allLayers : List (List Int)) (height : Nat)
    (compatibleLayers : List (List Nat)) : Option Nat :=
  if height = 0 then none
  else
    some ((Calculate.row allLayers.length compatibleLayers (height - 1)).foldl
      (fun sum i => (sum + i) % 2 ^ 64) 0)

/-- Function `AppendBrick`; the result is the value of `list` after the call. -/
def AppendBrick (wallWidth brickWidth : Int) (list : List (List Int)) : List (List Int) :=
  list.map (fun v =>
    let pos := (match v.getLast? with
      | none => 0
      | some back => back) + brickWidth
    if pos ≠ wallWidth then v ++ [pos] else v)

/-- Function `GenerateAllPossibleLayers`. -/
def GenerateAllPossibleLayers (width : Int) : List (List Int) :=
  if width < BRICK_WIDTH_SMALL then []
  else if width ≤ BRICK_WIDTH_BIG then [[width]]
  else
    let allLayers : List (List (List Int)) := List.replicate (width + 1).toNat []
    let allLayers := allLayers.set BRICK_WIDTH_SMALL.toNat [[BRICK_WIDTH_SMALL]]
    let allLayers := allLayers.set BRICK_WIDTH_BIG.toNat [[BRICK_WIDTH_BIG]]
    let allLayers :=
      (List.range' (BRICK_WIDTH_BIG.toNat + 1)
          (allLayers.length - (BRICK_WIDTH_BIG.toNat + 1))).foldl
        (fun allLayers i =>
          let layerS := AppendBrick width BRICK_WIDTH_SMALL
            (allLayers.getD (i - BRICK_WIDTH_SMALL.toNat) [])
          let layerL := AppendBrick width BRICK_WIDTH_BIG
            (allLayers.getD (i - BRICK_WIDTH_BIG.toNat) [])
          allLayers.set i (allLayers.getD i [] ++ layerS ++ layerL))
        allLayers
    allLayers.getD width.toNat []

/-- The computation of `main` for a width and a height: the value written to
`std::cout`. -/
def crackFreeWallCount (width : Int) (height : Nat) : Option Nat :=
  let allPossiblelayers := GenerateAllPossibleLayers width
  let compatibleLayers := GenerateCompatibleLayers allPossiblelayers []
  Calculate allPossiblelayers height compatibleLayers

end CrackFreeWalls

/-! ## Specification of the count -/

namespace CrackFreeWalls

/-- All rows of `n` bricks, each of width 2 or 3. -/
def brickRows : Nat → List (List Nat)
  | 0 => [[]]
  | n + 1 => (brickRows n).flatMap (fun row => [2 :: row, 3 :: row])

/-- All layers of a wall of a width: the rows of bricks of width 2 and 3 whose
widths add up to the width of the wall. -/
def wallLayers (width : Nat) : List (List Nat) :=
  (List.range (width + 1)).flatMap
    (fun n => (brickRows n).filter (fun row => decide (row.sum = width)))

/-- Positions of the gaps between horizontally adjacent bricks of a layer; they
lie strictly inside the wall. -/
def gaps : List Nat → List Nat
  | [] => []
  | [_] => []
  | brick :: next :: rest => brick :: (gaps (next :: rest)).map (fun p => brick + p)

/-- No gap lines up in two consecutive layers of a wall. -/
def crackFree : List (List Nat) → Bool
  | [] => true
  | [_] => true
  | under :: over :: rest =>
    (gaps under).all (fun p => !(gaps over).contains p) && crackFree (over :: rest)

/-- All walls of a width and a height, as lists of layers. -/
def walls (width : Nat) : Nat → List (List (List Nat))
  | 0 => [[]]
  | height + 1 => (wallLayers width).flatMap (fun layer => (walls width height).map (layer :: ·))

/-- The number `W(width, height)` of the problem statement: the crack-free walls
of a width and a height out of bricks of width 2 and 3. -/
def W (width height : Nat) : Nat :=
  ((walls width height).filter crackFree).length

/-- Weight of a sequence of layer indices in a compatibility table: the number
of ways to pick, for every two consecutive indices, an occurrence of the second
in the entry of the first. -/
def chainWeight (compatibleLayers : List (List Nat)) : List Nat → Nat
  | [] => 1
  | [_] => 1
  | a :: b :: rest =>
    (compatibleLayers.getD a []).count b * chainWeight compatibleLayers (b :: rest)

/-- All sequences of a length of layer indices below `n`. -/
def indexSequences (n : Nat) : Nat → List (List Nat)
  | 0 => [[]]
  | height + 1 => (List.range n).flatMap (fun i => (indexSequences n height).map (i :: ·))

/-- The number of sequences of `height + 1` layer indices below `n` that start
with the index `i`, each counted with its weight. -/
def chainsFrom (n : Nat) (compatibleLayers : List (List Nat)) : Nat → Nat → Nat
  | 0, _ => 1
  | height + 1, i =>
    ∑ j ∈ Finset.range n,
      (compatibleLayers.getD i []).count j * chainsFrom n compatibleLayers height j

/-- The number of sequences of `height + 1` layer indices below `n` that end
with the index `j`, each counted with its weight. -/
def chainsTo (n : Nat) (compatibleLayers : List (List Nat)) : Nat → Nat → Nat
  | 0, _ => 1
  | height + 1, j =>
    ∑ i ∈ Finset.range n,
      chainsTo n compatibleLayers height i * (compatibleLayers.getD i []).count j

/-- The number of sequences of `height` layer indices below `n` in which every
index occurs in the entry of its predecessor in the table, counted with
multiplicity. -/
def countChains (n : Nat) (compatibleLayers : List (List Nat)) (height : Nat) : Nat :=
  ((indexSequences n height).map (chainWeight compatibleLayers)).sum

end CrackFreeWalls

namespace SimpleOrderBook

/-! ## Lemmas on the association lists -/

namespace UMap

theorem erase_of_find_none {α : Type} (m : List (Int × α)) (key : Int)
    (h : find m key = none) : erase m key = m := by
  induction m with
  | nil => rfl
  | cons e rest ih =>
    obtain ⟨k', v'⟩ := e
    by_cases hk : k' = key
    · simp [find, hk] at h
    · simp only [find, hk, if_false] at h
      simp [erase, hk, ih h]

theorem erase_insert_of_find_none {α : Type} (m : List (Int × α)) (key : Int) (v : α)
    (h : find m key = none) : erase (insert m key v) key = m := by
  induction m with
  | nil => simp [insert, erase]
  | cons e rest ih =>
    obtain ⟨k', v'⟩ := e
    by_cases hk : k' = key
    · simp [find, hk] at h
    · simp only [find, hk, if_false] at h
      simp [insert, erase, hk, ih h]

theorem erase_assign_of_find_none {α : Type} (m : List (Int × α)) (key : Int) (v : α)
    (h : find m key = none) : erase (assign m key v) key = m := by
  induction m with
  | nil => simp [assign, erase]
  | cons e rest ih =>
    obtain ⟨k', v'⟩ := e
    by_cases hk : k' = key
    · simp [find, hk] at h
    · simp only [find, hk, if_false] at h
      simp [assign, erase, hk, ih h]

theorem find_erase_self {α : Type} (m : List (Int × α)) (key : Int) :
    find (erase m key) key = none := by
  induction m with
  | nil => rfl
  | cons e rest ih =>
    obtain ⟨k', v'⟩ := e
    by_cases hk : k' = key
    · simp [erase, hk, ih]
    · simp [erase, hk, ih, find]

theorem find_erase_ne {α : Type} (m : List (Int × α)) (k key : Int) (hne : k ≠ key) :
    find (erase m k) key = find m key := by
  induction m with
  | nil => rfl
  | cons e rest ih =>
    obtain ⟨k', v'⟩ := e
    by_cases hk : k' = k
    · subst hk
      simp [erase, ih, find, hne]
    · by_cases hk2 : k' = key
      · simp [erase, hk, find, hk2, Ne.symm hne]
      · simp [erase, hk, find, hk2, ih]

theorem find_modify_self {α : Type} (m : List (Int × α)) (key : Int) (f : α → α) :
    find (modify m key f) key = (find m key).map f := by
  induction m with
  | nil => rfl
  | cons e rest ih =>
    obtain ⟨k', v'⟩ := e
    by_cases hk : k' = key
    · simp [find, modify, hk]
    · simp [find, modify, hk, ih]

theorem find_modify_ne {α : Type} (m : List (Int × α)) (k key : Int) (f : α → α)
    (hne : k ≠ key) : find (modify m k f) key = find m key := by
  induction m with
  | nil => rfl
  | cons e rest ih =>
    obtain ⟨k', v'⟩ := e
    by_cases hk : k' = k
    · subst hk
      simp [find, modify, hne]
    · by_cases hk2 : k' = key
      · simp [find, modify, hk, hk2, Ne.symm hne]
      · simp [find, modify, hk, hk2, ih]

theorem find_insert_self {α : Type} (m : List (Int × α)) (key : Int) (v : α)
    (h : find m key = none) : find (insert m key v) key = some v := by
  induction m with
  | nil => simp [insert, find]
  | cons e rest ih =>
    obtain ⟨k', v'⟩ := e
    by_cases hk : k' = key
    · simp [find, hk] at h
    · simp only [find, hk, if_false] at h
      simp [insert, find, hk, ih h]

theorem find_insert_ne {α : Type} (m : List (Int × α)) (k key : Int) (v : α)
    (hne : k ≠ key) : find (insert m k v) key = find m key := by
  induction m with
  | nil => simp [insert, find, hne]
  | cons e rest ih =>
    obtain ⟨k', v'⟩ := e
    by_cases hk : k' = k
    · simp [insert, hk]
    · by_cases hk2 : k' = key
      · simp [insert, find, hk, hk2, Ne.symm hne]
      · simp [insert, find, hk, hk2, ih]

theorem find_assign_self {α : Type} (m : List (Int × α)) (key : Int) (v : α) :
    find (assign m key v) key = some v := by
  induction m with
  | nil => simp [assign, find]
  | cons e rest ih =>
    obtain ⟨k', v'⟩ := e
    by_cases hk : k' = key
    · simp [assign, find, hk]
    · simp [assign, find, hk, ih]

end UMap

/-! ## Order callbacks: one call -/

theorem UpdateRequestRate_mOrderMap (s : OrderListener) (t : ℚ) :
    (s.UpdateRequestRate t).mOrderMap = s.mOrderMap := rfl

/-- Effect of `OnOrderFilled` on an order that is in the table, for a bid or an
offer. -/
theorem OnOrderFilled_found (s : OrderListener) (id quantityFilled : Int) (o : Order)
    (hfind : UMap.find s.mOrderMap id = some o)
    (hside : o.mSide = BID_SIDE ∨ o.mSide = OFFER_SIDE) :
    ((s.OnOrderFilled id quantityFilled).1.mNetFilledQuantity =
        s.mNetFilledQuantity + (if o.mSide = BID_SIDE then quantityFilled else -quantityFilled)) ∧
    ((s.OnOrderFilled id quantityFilled).1.ConfirmedOrderValue o.mSide =
        s.ConfirmedOrderValue o.mSide - (quantityFilled : ℚ) * o.mPrice) ∧
    ((s.OnOrderFilled id quantityFilled).1.MinPendingOrderValue o.mSide =
        s.MinPendingOrderValue o.mSide - (quantityFilled : ℚ) * o.mPrice) ∧
    ((s.OnOrderFilled id quantityFilled).1.MaxPendingOrderValue o.mSide =
        s.MaxPendingOrderValue o.mSide - (quantityFilled : ℚ) * o.mPrice) ∧
    (UMap.find (s.OnOrderFilled id quantityFilled).1.mOrderMap id =
        if o.mQuantity - quantityFilled = 0 then none
        else some (o.SetQuantity (o.mQuantity - quantityFilled))) := by
  have hBO : OFFER_SIDE ≠ BID_SIDE := by decide
  rcases hside with hs | hs
  · by_cases hq : o.mQuantity - quantityFilled = 0
    · simp [OrderListener.OnOrderFilled, hfind, hs, hq, OrderListener.ConfirmedOrderValue,
        OrderListener.MinPendingOrderValue, OrderListener.MaxPendingOrderValue,
        UMap.find_erase_self]
    · simp [OrderListener.OnOrderFilled, hfind, hs, hq, OrderListener.ConfirmedOrderValue,
        OrderListener.MinPendingOrderValue, OrderListener.MaxPendingOrderValue,
        UMap.find_modify_self]
  · by_cases hq : o.mQuantity - quantityFilled = 0
    · simp [OrderListener.OnOrderFilled, hfind, hs, hq, hBO, OrderListener.ConfirmedOrderValue,
        OrderListener.MinPendingOrderValue, OrderListener.MaxPendingOrderValue,
        UMap.find_erase_self]
      ring
    · simp [OrderListener.OnOrderFilled, hfind, hs, hq, hBO, OrderListener.ConfirmedOrderValue,
        OrderListener.MinPendingOrderValue, OrderListener.MaxPendingOrderValue,
        UMap.find_modify_self]
      ring

/-- Filling an order of the table down to zero by a list of positive fills. -/
theorem run_fills (id : Int) :
    ∀ (fills : List Int) (s : OrderListener) (o : Order),
      UMap.find s.mOrderMap id = some o →
      (o.mSide = BID_SIDE ∨ o.mSide = OFFER_SIDE) →
      0 < o.mQuantity →
      (∀ f ∈ fills, 0 < f) →
      fills.sum = o.mQuantity →
      UMap.find (run s (fills.map (Event.filled id))).mOrderMap id = none ∧
      (run s (fills.map (Event.filled id))).mNetFilledQuantity =
        s.mNetFilledQuantity + (if o.mSide = BID_SIDE then o.mQuantity else -o.mQuantity) ∧
      (run s (fills.map (Event.filled id))).ConfirmedOrderValue o.mSide =
        s.ConfirmedOrderValue o.mSide - (o.mQuantity : ℚ) * o.mPrice ∧
      (run s (fills.map (Event.filled id))).MinPendingOrderValue o.mSide =
        s.MinPendingOrderValue o.mSide - (o.mQuantity : ℚ) * o.mPrice ∧
      (run s (fills.map (Event.filled id))).MaxPendingOrderValue o.mSide =
        s.MaxPendingOrderValue o.mSide - (o.mQuantity : ℚ) * o.mPrice := by
  intro fills
  induction fills with
  | nil =>
    intro s o _ _ hq _ hsum
    simp at hsum
    omega
  | cons f rest ih =>
    intro s o hfind hside hq hpos hsum
    obtain ⟨hn, hc, hmin, hmax, hmap⟩ := OnOrderFilled_found s id f o hfind hside
    have hf : 0 < f := hpos f (List.mem_cons_self f rest)
    have hrest : ∀ g ∈ rest, 0 < g := fun g hg => hpos g (List.mem_cons_of_mem f hg)
    have hsum' : f + rest.sum = o.mQuantity := by simpa using hsum
    have hnonneg : 0 ≤ rest.sum := List.sum_nonneg (fun g hg => le_of_lt (hrest g hg))
    simp only [List.map_cons, run, step]
    by_cases hlast : o.mQuantity - f = 0
    · have hrs : rest.sum = 0 := by omega
      have hnil : rest = [] := by
        cases rest with
        | nil => rfl
        | cons g gs =>
          have hg : 0 < g := hrest g (List.mem_cons_self g gs)
          have hgs : 0 ≤ gs.sum :=
            List.sum_nonneg (fun x hx => le_of_lt (hrest x (List.mem_cons_of_mem g hx)))
          simp at hrs
          omega
      subst hnil
      have hfq : f = o.mQuantity := by omega
      simp only [List.map_nil, run]
      rw [hmap, hn, hc, hmin, hmax, if_pos hlast, hfq]
      simp
    · rw [if_neg hlast] at hmap
      have hside' : (o.SetQuantity (o.mQuantity - f)).mSide = BID_SIDE ∨
          (o.SetQuantity (o.mQuantity - f)).mSide = OFFER_SIDE := hside
      have hq' : 0 < (o.SetQuantity (o.mQuantity - f)).mQuantity := by
        show 0 < o.mQuantity - f
        omega
      have hsum2 : rest.sum = (o.SetQuantity (o.mQuantity - f)).mQuantity := by
        show rest.sum = o.mQuantity - f
        omega
      obtain ⟨h1, h2, h3, h4, h5⟩ := ih _ _ hmap hside' hq' hrest hsum2
      have e1 : (o.SetQuantity (o.mQuantity - f)).mSide = o.mSide := rfl
      have e2 : (o.SetQuantity (o.mQuantity - f)).mQuantity = o.mQuantity - f := rfl
      have e3 : (o.SetQuantity (o.mQuantity - f)).mPrice = o.mPrice := rfl
      simp only [e1, e2, e3] at h2 h3 h4 h5
      refine ⟨h1, ?_, ?_, ?_, ?_⟩
      · rw [h2, hn]
        split_ifs <;> ring
      · rw [h3, hc]; push_cast; ring
      · rw [h4, hmin]; push_cast; ring
      · rw [h5, hmax]; push_cast; ring

/-! ## Order callbacks: the claims -/

/-- C2, amended. With order values computed in exact arithmetic (prices,
products and running sums taken as exact rationals): on a fresh listener, an
insert request for `q > 0` units, its acknowledgement and any list of positive
fills that sums to `q` leave the id absent from the order table, the net filled
quantity at `+q` for a bid and `-q` for an offer, and the confirmed, minimum
pending and maximum pending values of that side at `0`. -/
theorem C2_full_lifecycle (noOfRequests noOfSeconds : Int) (currentTime : ℚ)
    (id : Int) (side : Char) (price : ℚ) (q : Int) (fills : List Int)
    (hside : side = BID_SIDE ∨ side = OFFER_SIDE) (hq : 0 < q)
    (hpos : ∀ f ∈ fills, 0 < f) (hsum : fills.sum = q) :
    UMap.find (run (OrderListener.ctor noOfRequests noOfSeconds)
        (Event.insertRequest currentTime id side price q :: Event.acknowledged id ::
          fills.map (Event.filled id))).mOrderMap id = none ∧
    (run (OrderListener.ctor noOfRequests noOfSeconds)
        (Event.insertRequest currentTime id side price q :: Event.acknowledged id ::
          fills.map (Event.filled id))).mNetFilledQuantity =
      (if side = BID_SIDE then q else -q) ∧
    (run (OrderListener.ctor noOfRequests noOfSeconds)
        (Event.insertRequest currentTime id side price q :: Event.acknowledged id ::
          fills.map (Event.filled id))).ConfirmedOrderValue side = 0 ∧
    (run (OrderListener.ctor noOfRequests noOfSeconds)
        (Event.insertRequest currentTime id side price q :: Event.acknowledged id ::
          fills.map (Event.filled id))).MinPendingOrderValue side = 0 ∧
    (run (OrderListener.ctor noOfRequests noOfSeconds)
        (Event.insertRequest currentTime id side price q :: Event.acknowledged id ::
          fills.map (Event.filled id))).MaxPendingOrderValue side = 0 := by
  have hBO : OFFER_SIDE ≠ BID_SIDE := by decide
  obtain ⟨s, hs⟩ : ∃ s, s = (step (step (OrderListener.ctor noOfRequests noOfSeconds)
      (Event.insertRequest currentTime id side price q)).1 (Event.acknowledged id)).1 := ⟨_, rfl⟩
  have hrun : run (OrderListener.ctor noOfRequests noOfSeconds)
      (Event.insertRequest currentTime id side price q :: Event.acknowledged id ::
        fills.map (Event.filled id)) = run s (fills.map (Event.filled id)) := by
    rw [hs]; rfl
  have hstate : UMap.find s.mOrderMap id =
        some { mPrice := price, mId := id, mQuantity := q, mSide := side } ∧
      s.mNetFilledQuantity = 0 ∧ s.ConfirmedOrderValue side = (q : ℚ) * price ∧
      s.MinPendingOrderValue side = (q : ℚ) * price ∧
      s.MaxPendingOrderValue side = price * (q : ℚ) := by
    rw [hs]
    rcases hside with h | h <;>
      simp [step, OrderListener.OnInsertOrderRequest, OrderListener.OnRequestAcknowledged,
        OrderListener.UpdateRequestRate, OrderListener.DeleteOldTimeStamps,
        OrderListener.ctor, UMap.insert, UMap.find, h, hBO,
        OrderListener.ConfirmedOrderValue, OrderListener.MinPendingOrderValue,
        OrderListener.MaxPendingOrderValue]
  obtain ⟨hfind, hn, hc, hmin, hmax⟩ := hstate
  obtain ⟨r1, r2, r3, r4, r5⟩ :=
    run_fills id fills s _ hfind hside hq hpos hsum
  rw [hrun]
  refine ⟨r1, ?_, ?_, ?_, ?_⟩
  · rw [r2, hn]; simp
  · rw [r3, hc]; simp
  · rw [r4, hmin]; simp
  · rw [r5, hmax]; simp [mul_comm]

/-- C2, the lifecycle of the specification: Insert(1, Bid, 10, 10), Ack(1),
Fill(1, 5), Fill(1, 5). -/
theorem C2_full_lifecycle_witness :
    UMap.find (run (OrderListener.ctor 2 3)
        (Event.insertRequest 0 1 BID_SIDE 10 10 :: Event.acknowledged 1 ::
          [5, 5].map (Event.filled 1))).mOrderMap 1 = none ∧
    (run (OrderListener.ctor 2 3)
        (Event.insertRequest 0 1 BID_SIDE 10 10 :: Event.acknowledged 1 ::
          [5, 5].map (Event.filled 1))).mNetFilledQuantity =
      (if BID_SIDE = BID_SIDE then 10 else -10) ∧
    (run (OrderListener.ctor 2 3)
        (Event.insertRequest 0 1 BID_SIDE 10 10 :: Event.acknowledged 1 ::
          [5, 5].map (Event.filled 1))).ConfirmedOrderValue BID_SIDE = 0 ∧
    (run (OrderListener.ctor 2 3)
        (Event.insertRequest 0 1 BID_SIDE 10 10 :: Event.acknowledged 1 ::
          [5, 5].map (Event.filled 1))).MinPendingOrderValue BID_SIDE = 0 ∧
    (run (OrderListener.ctor 2 3)
        (Event.insertRequest 0 1 BID_SIDE 10 10 :: Event.acknowledged 1 ::
          [5, 5].map (Event.filled 1))).MaxPendingOrderValue BID_SIDE = 0 :=
  C2_full_lifecycle 2 3 0 1 BID_SIDE 10 10 [5, 5] (Or.inl rfl) (by decide)
    (by decide) (by decide)

/-- C10. For an id that is not in the order table, `OnRequestAcknowledged`,
`OnRequestRejected` and `OnOrderFilled` report the unknown id and return the
state they were given: the net filled quantity, the six order values, the order
table and the replacement link table are unchanged. -/
theorem C10_unknown_id_reported_state_unchanged (s : OrderListener) (id q : Int)
    (habsent : UMap.find s.mOrderMap id = none) :
    s.OnRequestAcknowledged id = (s, Diagnostic.orderIdNotFound) ∧
    s.OnRequestRejected id = (s, Diagnostic.orderIdNotFound) ∧
    s.OnOrderFilled id q = (s, Diagnostic.orderIdNotFound) := by
  refine ⟨?_, ?_, ?_⟩
  · simp [OrderListener.OnRequestAcknowledged, habsent]
  · simp [OrderListener.OnRequestRejected, habsent]
  · simp [OrderListener.OnOrderFilled, habsent]

/-- C10 on the fresh listener, whose order table is empty, for id 7. -/
theorem C10_unknown_id_reported_state_unchanged_witness :
    (OrderListener.ctor 2 3).OnRequestAcknowledged 7 =
      (OrderListener.ctor 2 3, Diagnostic.orderIdNotFound) ∧
    (OrderListener.ctor 2 3).OnRequestRejected 7 =
      (OrderListener.ctor 2 3, Diagnostic.orderIdNotFound) ∧
    (OrderListener.ctor 2 3).OnOrderFilled 7 4 =
      (OrderListener.ctor 2 3, Diagnostic.orderIdNotFound) :=
  C10_unknown_id_reported_state_unchanged (OrderListener.ctor 2 3) 7 4 rfl

/-- C5. When `id` is not in the order table, an insert request for a bid or an
offer followed by the rejection of `id` returns the maximum pending order value
of that side to its value before the insert and leaves `id` absent from the
order table. -/
theorem C5_insert_then_reject_restores_max (s : OrderListener) (currentTime : ℚ)
    (id : Int) (side : Char) (price : ℚ) (quantity : Int)
    (habsent : UMap.find s.mOrderMap id = none)
    (hside : side = BID_SIDE ∨ side = OFFER_SIDE) :
    ((s.OnInsertOrderRequest currentTime id side price quantity).1.OnRequestRejected
        id).1.MaxPendingOrderValue side = s.MaxPendingOrderValue side ∧
    UMap.find ((s.OnInsertOrderRequest currentTime id side price quantity).1.OnRequestRejected
        id).1.mOrderMap id = none := by
  have hBO : OFFER_SIDE ≠ BID_SIDE := by decide
  have hfind := UMap.find_insert_self s.mOrderMap id
    ({ mPrice := price, mId := id, mQuantity := quantity, mSide := side } : Order) habsent
  rcases hside with h | h
  · subst h
    simp only [OrderListener.OnInsertOrderRequest, OrderListener.OnRequestRejected,
      OrderListener.UpdateRequestRate, OrderListener.DeleteOldTimeStamps, if_true, hfind]
    constructor
    · split <;> (try split) <;> simp [OrderListener.MaxPendingOrderValue, mul_comm]
    · split <;> (try split) <;> simp [UMap.find_erase_self]
  · subst h
    simp only [OrderListener.OnInsertOrderRequest, OrderListener.OnRequestRejected,
      OrderListener.UpdateRequestRate, OrderListener.DeleteOldTimeStamps, if_neg hBO,
      if_true, hfind]
    constructor
    · split <;> (try split) <;> simp [OrderListener.MaxPendingOrderValue, hBO, mul_comm]
    · split <;> (try split) <;> simp [UMap.find_erase_self]

/-- C5 on the fresh listener: Insert(1, Offer, 15, 25) then Reject(1). -/
theorem C5_insert_then_reject_restores_max_witness :
    (((OrderListener.ctor 2 3).OnInsertOrderRequest 0 1 OFFER_SIDE 15 25).1.OnRequestRejected
        1).1.MaxPendingOrderValue OFFER_SIDE =
      (OrderListener.ctor 2 3).MaxPendingOrderValue OFFER_SIDE ∧
    UMap.find (((OrderListener.ctor 2 3).OnInsertOrderRequest 0 1 OFFER_SIDE 15
        25).1.OnRequestRejected 1).1.mOrderMap 1 = none :=
  C5_insert_then_reject_restores_max (OrderListener.ctor 2 3) 0 1 OFFER_SIDE 15 25 rfl
    (Or.inr rfl)

/-- State after a replace request for an order `o` found under `oldId`, when
`newId` is in neither table. -/
theorem OnReplaceOrderRequest_found (s : OrderListener) (currentTime : ℚ)
    (oldId newId deltaQuantity : Int) (o : Order)
    (hold : UMap.find s.mOrderMap oldId = some o) :
    (s.OnReplaceOrderRequest currentTime oldId newId deltaQuantity).1 =
      { s.UpdateRequestRate currentTime with
        mMaxBidPendingOrderValue :=
          if o.mSide = BID_SIDE then
            s.mMaxBidPendingOrderValue + (deltaQuantity : ℚ) * o.mPrice
          else s.mMaxBidPendingOrderValue
        mMaxOfferPendingOrderValue :=
          if o.mSide = BID_SIDE then s.mMaxOfferPendingOrderValue
          else if o.mSide = OFFER_SIDE then
            s.mMaxOfferPendingOrderValue + (deltaQuantity : ℚ) * o.mPrice
          else s.mMaxOfferPendingOrderValue
        mOrderModificationMap := UMap.assign s.mOrderModificationMap newId oldId
        mOrderMap := UMap.insert s.mOrderMap newId
          { mPrice := o.mPrice, mId := newId, mQuantity := deltaQuantity, mSide := o.mSide } } := by
  have hBO : OFFER_SIDE ≠ BID_SIDE := by decide
  have h1 : UMap.find (s.UpdateRequestRate currentTime).mOrderMap oldId = some o := hold
  simp only [OrderListener.OnReplaceOrderRequest, h1]
  by_cases hB : o.mSide = BID_SIDE
  · simp [hB, OrderListener.UpdateRequestRate, OrderListener.DeleteOldTimeStamps]
  · by_cases hO : o.mSide = OFFER_SIDE
    · simp [hO, hBO, OrderListener.UpdateRequestRate, OrderListener.DeleteOldTimeStamps]
    · simp [hB, hO, OrderListener.UpdateRequestRate, OrderListener.DeleteOldTimeStamps]

/-- C4. When `oldId` is in the order table and `newId`, different from `oldId`,
is in neither the order table nor the replacement link table, a replace request
followed by the rejection of `newId` leaves the order under `oldId` as it was
and returns the order table, the link table, the net filled quantity and the
six order values to what they were before the request; in between, the request
has added `price * deltaQuantity` to the maximum pending value of the side of
the order (a bid or an offer) and has changed no other value, so that amount is
all the rejection takes back. -/
theorem C4_replace_then_reject_restores (s : OrderListener) (currentTime : ℚ)
    (oldId newId deltaQuantity : Int) (o : Order)
    (hold : UMap.find s.mOrderMap oldId = some o)
    (_hne : newId ≠ oldId)
    (hnew : UMap.find s.mOrderMap newId = none)
    (hlink : UMap.find s.mOrderModificationMap newId = none) :
    UMap.find ((s.OnReplaceOrderRequest currentTime oldId newId deltaQuantity).1.OnRequestRejected
        newId).1.mOrderMap oldId = some o ∧
    ((s.OnReplaceOrderRequest currentTime oldId newId deltaQuantity).1.OnRequestRejected
        newId).1.mOrderMap = s.mOrderMap ∧
    ((s.OnReplaceOrderRequest currentTime oldId newId deltaQuantity).1.OnRequestRejected
        newId).1.mOrderModificationMap = s.mOrderModificationMap ∧
    ((s.OnReplaceOrderRequest currentTime oldId newId deltaQuantity).1.OnRequestRejected
        newId).1.mNetFilledQuantity = s.mNetFilledQuantity ∧
    ((s.OnReplaceOrderRequest currentTime oldId newId deltaQuantity).1.OnRequestRejected
        newId).1.mBidConfirmedOrderValue = s.mBidConfirmedOrderValue ∧
    ((s.OnReplaceOrderRequest currentTime oldId newId deltaQuantity).1.OnRequestRejected
        newId).1.mOfferConfirmedOrderValue = s.mOfferConfirmedOrderValue ∧
    ((s.OnReplaceOrderRequest currentTime oldId newId deltaQuantity).1.OnRequestRejected
        newId).1.mMinBidPendingOrderValue = s.mMinBidPendingOrderValue ∧
    ((s.OnReplaceOrderRequest currentTime oldId newId deltaQuantity).1.OnRequestRejected
        newId).1.mMinOfferPendingOrderValue = s.mMinOfferPendingOrderValue ∧
    ((s.OnReplaceOrderRequest currentTime oldId newId deltaQuantity).1.OnRequestRejected
        newId).1.mMaxBidPendingOrderValue = s.mMaxBidPendingOrderValue ∧
    ((s.OnReplaceOrderRequest currentTime oldId newId deltaQuantity).1.OnRequestRejected
        newId).1.mMaxOfferPendingOrderValue = s.mMaxOfferPendingOrderValue ∧
    ((o.mSide = BID_SIDE ∨ o.mSide = OFFER_SIDE) →
      (s.OnReplaceOrderRequest currentTime oldId newId deltaQuantity).1.MaxPendingOrderValue
          o.mSide = s.MaxPendingOrderValue o.mSide + o.mPrice * (deltaQuantity : ℚ)) ∧
    (o.mSide ≠ BID_SIDE →
      (s.OnReplaceOrderRequest currentTime oldId newId deltaQuantity).1.mMaxBidPendingOrderValue =
        s.mMaxBidPendingOrderValue) ∧
    (o.mSide ≠ OFFER_SIDE →
      (s.OnReplaceOrderRequest currentTime oldId newId deltaQuantity).1.mMaxOfferPendingOrderValue =
        s.mMaxOfferPendingOrderValue) ∧
    (s.OnReplaceOrderRequest currentTime oldId newId deltaQuantity).1.mNetFilledQuantity =
      s.mNetFilledQuantity ∧
    (s.OnReplaceOrderRequest currentTime oldId newId deltaQuantity).1.mBidConfirmedOrderValue =
      s.mBidConfirmedOrderValue ∧
    (s.OnReplaceOrderRequest currentTime oldId newId deltaQuantity).1.mOfferConfirmedOrderValue =
      s.mOfferConfirmedOrderValue ∧
    (s.OnReplaceOrderRequest currentTime oldId newId deltaQuantity).1.mMinBidPendingOrderValue =
      s.mMinBidPendingOrderValue ∧
    (s.OnReplaceOrderRequest currentTime oldId newId deltaQuantity).1.mMinOfferPendingOrderValue =
      s.mMinOfferPendingOrderValue := by
  have hBO : OFFER_SIDE ≠ BID_SIDE := by decide
  have hrep := OnReplaceOrderRequest_found s currentTime oldId newId deltaQuantity o hold
  have hfindNew : UMap.find (UMap.insert s.mOrderMap newId
      ({ mPrice := o.mPrice, mId := newId, mQuantity := deltaQuantity, mSide := o.mSide } : Order))
      newId = some (Order.mk o.mPrice newId deltaQuantity o.mSide) :=
    UMap.find_insert_self _ _ _ hnew
  have hfindLink : UMap.find (UMap.assign s.mOrderModificationMap newId oldId) newId =
      some oldId := UMap.find_assign_self _ _ _
  have heraseMap := UMap.erase_insert_of_find_none s.mOrderMap newId
    ({ mPrice := o.mPrice, mId := newId, mQuantity := deltaQuantity, mSide := o.mSide } : Order)
    hnew
  have heraseLink := UMap.erase_assign_of_find_none s.mOrderModificationMap newId oldId hlink
  have hwhole : ((s.OnReplaceOrderRequest currentTime oldId newId
      deltaQuantity).1.OnRequestRejected newId).1 = s.UpdateRequestRate currentTime := by
    rw [hrep]
    generalize hno : Order.mk o.mPrice newId deltaQuantity o.mSide = newOrder at *
    have hprice : newOrder.mPrice = o.mPrice := by rw [← hno]
    have hqty : newOrder.mQuantity = deltaQuantity := by rw [← hno]
    have hsd : newOrder.mSide = o.mSide := by rw [← hno]
    simp only [OrderListener.OnRequestRejected, OrderListener.UpdateRequestRate,
      OrderListener.DeleteOldTimeStamps, hfindNew, hfindLink, heraseMap, heraseLink, hnew,
      hprice, hqty, hsd]
    by_cases hB : o.mSide = BID_SIDE
    · simp [hB, hfindLink, heraseMap, heraseLink, hnew]
    · by_cases hO : o.mSide = OFFER_SIDE
      · simp [hO, hBO, hfindLink, heraseMap, heraseLink, hnew]
      · simp [hB, hO, hfindLink, heraseMap, heraseLink, hnew]
  rw [hwhole, hrep]
  refine ⟨hold, rfl, rfl, rfl, rfl, rfl, rfl, rfl, rfl, rfl, ?_, ?_, ?_, rfl, rfl, rfl, rfl, rfl⟩
  · intro hside
    rcases hside with h | h
    · simp [OrderListener.MaxPendingOrderValue, h, mul_comm]
    · simp [OrderListener.MaxPendingOrderValue, h, hBO, mul_comm]
  · intro h
    simp [h]
  · intro h
    by_cases hB : o.mSide = BID_SIDE
    · simp [hB]
    · simp [hB, h]

/-- C4 on the scenario of the test in `main`: with the offer of 25 at 15
acknowledged under id 2, Replace(2 -> 3, 10) followed by Reject(3). -/
theorem C4_replace_then_reject_restores_witness :
    UMap.find (((run (OrderListener.ctor 2 3)
        [Event.insertRequest 0 2 OFFER_SIDE 15 25, Event.acknowledged 2]).OnReplaceOrderRequest
          1 2 3 10).1.OnRequestRejected 3).1.mOrderMap 2 = some (Order.mk 15 2 25 OFFER_SIDE) ∧
    (((run (OrderListener.ctor 2 3)
        [Event.insertRequest 0 2 OFFER_SIDE 15 25, Event.acknowledged 2]).OnReplaceOrderRequest
          1 2 3 10).1.OnRequestRejected 3).1.mMaxOfferPendingOrderValue =
      (run (OrderListener.ctor 2 3)
        [Event.insertRequest 0 2 OFFER_SIDE 15 25,
          Event.acknowledged 2]).mMaxOfferPendingOrderValue :=
  have h := C4_replace_then_reject_restores
    (run (OrderListener.ctor 2 3)
      [Event.insertRequest 0 2 OFFER_SIDE 15 25, Event.acknowledged 2])
    1 2 3 10 (Order.mk 15 2 25 OFFER_SIDE) (by decide!) (by decide) (by decide!) (by decide!)
  ⟨h.1, h.2.2.2.2.2.2.2.2.2.1⟩

/-! ## Order callbacks: evaluations -/

/-- C1 at Insert(1, Bid, 10, 10), Ack(1), Replace(1 -> 2, -5): every event is
correctly sequenced, and after the replace request the maximum pending value of
the bid side is 50, below the confirmed value 100. -/
theorem C1_max_below_confirmed_after_decrease :
    (run (OrderListener.ctor 2 3)
      [Event.insertRequest 0 1 BID_SIDE 10 10, Event.acknowledged 1,
        Event.replaceRequest 1 1 2 (-5)]).MaxPendingOrderValue BID_SIDE = 50 ∧
    (run (OrderListener.ctor 2 3)
      [Event.insertRequest 0 1 BID_SIDE 10 10, Event.acknowledged 1,
        Event.replaceRequest 1 1 2 (-5)]).ConfirmedOrderValue BID_SIDE = 100 ∧
    diagnostics (OrderListener.ctor 2 3)
      [Event.insertRequest 0 1 BID_SIDE 10 10, Event.acknowledged 1,
        Event.replaceRequest 1 1 2 (-5)] = [Diagnostic.ok, Diagnostic.ok, Diagnostic.ok] ∧
    ¬ ((run (OrderListener.ctor 2 3)
      [Event.insertRequest 0 1 BID_SIDE 10 10, Event.acknowledged 1,
        Event.replaceRequest 1 1 2 (-5)]).ConfirmedOrderValue BID_SIDE ≤
      (run (OrderListener.ctor 2 3)
      [Event.insertRequest 0 1 BID_SIDE 10 10, Event.acknowledged 1,
        Event.replaceRequest 1 1 2 (-5)]).MaxPendingOrderValue BID_SIDE) := by
  decide!

/-- C3 at the replacement scenario of the specification, Insert(2, Offer, 15,
25), Ack(2), Replace(2 -> 3, 10), Ack(3), Fill(3, 35): the order created under
id 3 has quantity 10, so the fill of 35 violates the assertion on the fill
quantity, and with the assertion compiled out id 3 stays in the order table
with quantity -25; the net filled quantity goes down by 35 and id 2 is gone. -/
theorem C3_replacement_fill_violates_assertion :
    diagnostics (OrderListener.ctor 2 3)
      [Event.insertRequest 0 2 OFFER_SIDE 15 25, Event.acknowledged 2,
        Event.replaceRequest 1 2 3 10, Event.acknowledged 3, Event.filled 3 35] =
      [Diagnostic.ok, Diagnostic.ok, Diagnostic.ok, Diagnostic.ok,
        Diagnostic.assertionViolated] ∧
    UMap.find (run (OrderListener.ctor 2 3)
      [Event.insertRequest 0 2 OFFER_SIDE 15 25, Event.acknowledged 2,
        Event.replaceRequest 1 2 3 10, Event.acknowledged 3]).mOrderMap 3 =
      some (Order.mk 15 3 10 OFFER_SIDE) ∧
    UMap.find (run (OrderListener.ctor 2 3)
      [Event.insertRequest 0 2 OFFER_SIDE 15 25, Event.acknowledged 2,
        Event.replaceRequest 1 2 3 10, Event.acknowledged 3, Event.filled 3 35]).mOrderMap 3 =
      some (Order.mk 15 3 (-25) OFFER_SIDE) ∧
    UMap.find (run (OrderListener.ctor 2 3)
      [Event.insertRequest 0 2 OFFER_SIDE 15 25, Event.acknowledged 2,
        Event.replaceRequest 1 2 3 10, Event.acknowledged 3, Event.filled 3 35]).mOrderMap 2 =
      none ∧
    (run (OrderListener.ctor 2 3)
      [Event.insertRequest 0 2 OFFER_SIDE 15 25, Event.acknowledged 2,
        Event.replaceRequest 1 2 3 10, Event.acknowledged 3,
        Event.filled 3 35]).mNetFilledQuantity = -35 := by
  decide!

/-! ## Request rate: the queue of time stamps -/

/-- On a queue in time order the loop of `DeleteOldTimeStamps` keeps exactly the
entries that are at most `noOfSeconds` seconds old. -/
theorem popOldTimeStamps_eq_filter (noOfSeconds : Int) (currentTime : ℚ) :
    ∀ q : List ℚ, q.Pairwise (fun a b => a ≤ b) →
      popOldTimeStamps noOfSeconds currentTime q =
        q.filter (fun t => decide (currentTime - t ≤ (noOfSeconds : ℚ))) := by
  intro q
  induction q with
  | nil => intro _; rfl
  | cons h rest ih =>
    intro hsorted
    rw [List.pairwise_cons] at hsorted
    obtain ⟨hle, hrest⟩ := hsorted
    by_cases hold : currentTime - h > (noOfSeconds : ℚ)
    · have hnot : ¬ (currentTime - h ≤ (noOfSeconds : ℚ)) := not_le.mpr hold
      simp only [popOldTimeStamps, if_pos hold, ih hrest]
      rw [List.filter_cons_of_neg (by simpa using hnot)]
    · have hyes : currentTime - h ≤ (noOfSeconds : ℚ) := not_lt.mp hold
      simp only [popOldTimeStamps, if_neg hold]
      rw [List.filter_cons_of_pos (by simpa using hyes)]
      congr 1
      symm
      rw [List.filter_eq_self]
      intro x hx
      have := hle x hx
      simp only [decide_eq_true_eq]
      linarith

/-- An entry that is recent at a later time was recent at an earlier one. -/
theorem filter_filter_later (Y : Int) (t now : ℚ) (hle : t ≤ now) (q : List ℚ) :
    (q.filter (fun x => decide (t - x ≤ (Y : ℚ)))).filter
        (fun x => decide (now - x ≤ (Y : ℚ))) =
      q.filter (fun x => decide (now - x ≤ (Y : ℚ))) := by
  rw [List.filter_filter]
  apply List.filter_congr
  intro x _
  by_cases h : now - x ≤ (Y : ℚ)
  · have : t - x ≤ (Y : ℚ) := by linarith
    simp [h, this]
  · simp [h]

/-- The callbacks leave the two parameters of the rate limit alone and change
the queue of time stamps only through `UpdateRequestRate`. -/
theorem step_rate (s : OrderListener) (e : Event) :
    (step s e).1.mNoOfRequests = s.mNoOfRequests ∧
    (step s e).1.mNoOfSeconds = s.mNoOfSeconds ∧
    (step s e).1.mOrderTimeQueue =
      match e.clock with
      | [] => s.mOrderTimeQueue
      | t :: _ => popOldTimeStamps s.mNoOfSeconds t s.mOrderTimeQueue ++ [t] := by
  cases e with
  | insertRequest t id side price quantity =>
    simp only [step, OrderListener.OnInsertOrderRequest, Event.clock]
    split_ifs <;> simp [OrderListener.UpdateRequestRate, OrderListener.DeleteOldTimeStamps]
  | replaceRequest t oldId newId deltaQuantity =>
    simp only [step, OrderListener.OnReplaceOrderRequest, Event.clock]
    split
    · simp [OrderListener.UpdateRequestRate, OrderListener.DeleteOldTimeStamps]
    · split_ifs <;> simp [OrderListener.UpdateRequestRate, OrderListener.DeleteOldTimeStamps]
  | acknowledged id =>
    simp only [step, OrderListener.OnRequestAcknowledged, Event.clock]
    split
    · simp
    · split_ifs <;> (split <;> (try split)) <;> simp
  | rejected id =>
    simp only [step, OrderListener.OnRequestRejected, Event.clock]
    split
    · simp
    · split_ifs <;> (split <;> (try split)) <;> simp
  | filled id quantityFilled =>
    simp only [step, OrderListener.OnOrderFilled, Event.clock]
    split
    · simp
    · split_ifs <;> simp

/-- Effect of any call on the rate limiter. -/
theorem exec_rate (s : OrderListener) (c : Call) :
    (exec s c).mNoOfRequests = s.mNoOfRequests ∧
    (exec s c).mNoOfSeconds = s.mNoOfSeconds ∧
    (exec s c).mOrderTimeQueue =
      match c.clock with
      | [] => s.mOrderTimeQueue
      | t :: _ => popOldTimeStamps s.mNoOfSeconds t s.mOrderTimeQueue ++ c.submission := by
  cases c with
  | event e =>
    have h := step_rate s e
    refine ⟨h.1, h.2.1, ?_⟩
    simp only [exec, Call.clock, Call.submission]
    rw [h.2.2]
    cases e <;> simp [Event.clock]
  | isRateExceeded t =>
    simp [exec, OrderListener.IsRateExceeded, OrderListener.DeleteOldTimeStamps, Call.clock,
      Call.submission]
  | timeToWait t1 t2 =>
    simp only [exec, OrderListener.TimeToWait, Call.clock, Call.submission]
    split_ifs
    · simp [OrderListener.IsRateExceeded, OrderListener.DeleteOldTimeStamps]
    · split <;> simp [OrderListener.IsRateExceeded, OrderListener.DeleteOldTimeStamps]

theorem clockReadings_append (cs : List Call) (c : Call) :
    clockReadings (cs ++ [c]) = clockReadings cs ++ c.clock := by
  induction cs with
  | nil => simp [clockReadings]
  | cons d ds ih => simp [clockReadings, ih]

theorem submissionTimes_append (cs : List Call) (c : Call) :
    submissionTimes (cs ++ [c]) = submissionTimes cs ++ c.submission := by
  induction cs with
  | nil => simp [submissionTimes]
  | cons d ds ih => simp [submissionTimes, ih]

theorem execAll_append (s : OrderListener) (cs : List Call) (c : Call) :
    execAll s (cs ++ [c]) = exec (execAll s cs) c := by
  simp [execAll, List.foldl_append]

/-- A submission of a call is its first clock reading. -/
theorem Call.submission_eq (c : Call) :
    c.submission = [] ∨ ∃ t rest, c.clock = t :: rest ∧ c.submission = [t] := by
  cases c with
  | event e => cases e <;> simp [Call.submission, Call.clock, Event.clock]
  | isRateExceeded t => simp [Call.submission]
  | timeToWait t1 t2 => simp [Call.submission]

/-- The queue of time stamps after calls at non-decreasing clock readings: the
parameters are those of the constructor, the queue is in time order and holds
clock readings of the calls, and at any time not before these readings the
entries of the queue that are at most `noOfSeconds` seconds old are the
submissions that are at most `noOfSeconds` seconds old. -/
theorem execAll_queue (noOfRequests noOfSeconds : Int) :
    ∀ cs : List Call, (clockReadings cs).Pairwise (fun a b => a ≤ b) →
      (execAll (OrderListener.ctor noOfRequests noOfSeconds) cs).mNoOfRequests = noOfRequests ∧
      (execAll (OrderListener.ctor noOfRequests noOfSeconds) cs).mNoOfSeconds = noOfSeconds ∧
      (execAll (OrderListener.ctor noOfRequests noOfSeconds) cs).mOrderTimeQueue.Pairwise
        (fun a b => a ≤ b) ∧
      (∀ x ∈ (execAll (OrderListener.ctor noOfRequests noOfSeconds) cs).mOrderTimeQueue,
        x ∈ clockReadings cs) ∧
      (∀ now : ℚ, (∀ r ∈ clockReadings cs, r ≤ now) →
        (execAll (OrderListener.ctor noOfRequests noOfSeconds) cs).mOrderTimeQueue.filter
            (fun x => decide (now - x ≤ (noOfSeconds : ℚ))) =
          (submissionTimes cs).filter (fun x => decide (now - x ≤ (noOfSeconds : ℚ)))) := by
  intro cs
  induction cs using List.reverseRecOn with
  | nil =>
    intro _
    simp [execAll, OrderListener.ctor, clockReadings, submissionTimes]
  | append_singleton cs c ih =>
    intro hsorted
    rw [clockReadings_append] at hsorted
    rw [List.pairwise_append] at hsorted
    obtain ⟨hR, hc, hRc⟩ := hsorted
    obtain ⟨hN, hY, hq, hmem, hfil⟩ := ih hR
    obtain ⟨eN, eY, eQ⟩ := exec_rate (execAll (OrderListener.ctor noOfRequests noOfSeconds) cs) c
    rw [execAll_append, clockReadings_append, submissionTimes_append]
    rw [hY] at eQ
    refine ⟨eN.trans hN, eY.trans hY, ?_, ?_, ?_⟩
    · -- time order
      rw [eQ]
      cases hclock : c.clock with
      | nil => simpa using hq
      | cons t rest =>
        simp only
        rw [popOldTimeStamps_eq_filter _ _ _ hq]
        have hsub : (List.filter (fun x => decide (t - x ≤ (noOfSeconds : ℚ)))
            (execAll (OrderListener.ctor noOfRequests noOfSeconds) cs).mOrderTimeQueue).Pairwise
            (fun a b => a ≤ b) := hq.sublist (List.filter_sublist _)
        rcases Call.submission_eq c with h0 | ⟨t', rest', h1, h2⟩
        · rw [h0]; simpa using hsub
        · rw [hclock] at h1
          have ht : t' = t := by
            have := (List.cons.inj h1).1
            exact this.symm
          rw [h2, ht, List.pairwise_append]
          refine ⟨hsub, List.pairwise_singleton _ _, ?_⟩
          intro a ha b hb
          have hb' : b = t := by simpa using hb
          rw [hb']
          have haq := (List.mem_filter.mp ha).1
          exact hRc a (hmem a haq) t (by rw [hclock]; exact List.mem_cons_self _ _)
    · -- entries are clock readings
      intro x hx
      rw [eQ] at hx
      cases hclock : c.clock with
      | nil =>
        rw [hclock] at hx
        simp only at hx
        simpa using hmem x hx
      | cons t rest =>
        rw [hclock] at hx
        simp only at hx
        rw [popOldTimeStamps_eq_filter _ _ _ hq] at hx
        rcases List.mem_append.mp hx with h | h
        · exact List.mem_append_left _ (hmem x (List.mem_filter.mp h).1)
        · rcases Call.submission_eq c with h0 | ⟨t', rest', h1, h2⟩
          · rw [h0] at h; simp at h
          · rw [h2] at h
            have hx' : x = t' := by simpa using h
            rw [hx', ← hclock, h1]
            exact List.mem_append_right _ (List.mem_cons_self _ _)
    · -- recent entries are the recent submissions
      intro now hnow
      have hnowR : ∀ r ∈ clockReadings cs, r ≤ now :=
        fun r hr => hnow r (List.mem_append_left _ hr)
      rw [eQ, List.filter_append, ← hfil now hnowR]
      cases hclock : c.clock with
      | nil =>
        rcases Call.submission_eq c with h0 | ⟨t', rest', h1, _⟩
        · rw [h0]; simp
        · rw [hclock] at h1; simp at h1
      | cons t rest =>
        simp only
        have htnow : t ≤ now :=
          hnow t (List.mem_append_right _ (by rw [hclock]; exact List.mem_cons_self _ _))
        rw [popOldTimeStamps_eq_filter _ _ _ hq, List.filter_append,
          filter_filter_later noOfSeconds t now htnow]

/-- The unsigned conversion of a window size in the range of a non-negative
`int` is the window size. -/
theorem toSizeT_of_nonneg (n : Int) (h0 : 0 ≤ n) (h1 : n < 2 ^ 31) :
    (toSizeT n : Int) = n := by
  unfold toSizeT
  have h2 : n % 2 ^ 64 = n := Int.emod_eq_of_lt h0 (by omega)
  rw [h2]
  exact Int.toNat_of_nonneg h0

/-! ## Request rate: the claims -/

/-- C6, amended. With clock readings and elapsed seconds taken as exact
rationals: after any sequence of calls (requests, confirmations,
`IsRateExceeded` queries, and `TimeToWait` queries that read inside the queue,
as every `TimeToWait` query does when `N >= 1`) on a fresh listener with window
size `N >= 0` (an `int`, hence below `2^31`) and period `Y >= 0`, made at
non-decreasing clock readings, `IsRateExceeded` at a time `now` not before
these readings returns true exactly when more than `N` submissions are at most
`Y` seconds old at `now`: a submission exactly `Y` seconds old counts, one
older than `Y` does not. -/
theorem C6_IsRateExceeded_iff_count (N Y : Int) (hN : 0 ≤ N) (hInt : N < 2 ^ 31)
    (_hY : 0 ≤ Y) (cs : List Call)
    (_hreads : readsInsideQueue (OrderListener.ctor N Y) cs = true)
    (hclock : (clockReadings cs).Pairwise (fun a b => a ≤ b))
    (now : ℚ) (hnow : ∀ r ∈ clockReadings cs, r ≤ now) :
    ((execAll (OrderListener.ctor N Y) cs).IsRateExceeded now).2 = true ↔
      N < (((submissionTimes cs).filter (fun t => decide (now - t ≤ (Y : ℚ)))).length : Int) := by
  obtain ⟨hN', hY', hq, _, hfil⟩ := execAll_queue N Y cs hclock
  simp only [OrderListener.IsRateExceeded, OrderListener.DeleteOldTimeStamps, hN', hY',
    decide_eq_true_eq]
  rw [popOldTimeStamps_eq_filter _ _ _ hq, hfil now hnow]
  have h := toSizeT_of_nonneg N hN hInt
  constructor
  · intro hgt
    rw [← h]
    exact_mod_cast hgt
  · intro hlt
    rw [← h] at hlt
    exact_mod_cast hlt

/-- C6, amended, with window 2 and period 3: submissions at 0, 1 and 2 with an
`IsRateExceeded` query and a `TimeToWait` query in between; at time 3 all three
are at most 3 seconds old. -/
theorem C6_IsRateExceeded_iff_count_witness :
    ((execAll (OrderListener.ctor 2 3)
        [Call.event (Event.insertRequest 0 1 BID_SIDE 10 10),
          Call.event (Event.insertRequest 1 2 OFFER_SIDE 15 25),
          Call.isRateExceeded 1,
          Call.event (Event.replaceRequest 2 2 3 10),
          Call.timeToWait 2 2]).IsRateExceeded 3).2 = true ↔
      (2 : Int) < (((submissionTimes
        [Call.event (Event.insertRequest 0 1 BID_SIDE 10 10),
          Call.event (Event.insertRequest 1 2 OFFER_SIDE 15 25),
          Call.isRateExceeded 1,
          Call.event (Event.replaceRequest 2 2 3 10),
          Call.timeToWait 2 2]).filter
            (fun t => decide ((3 : ℚ) - t ≤ ((3 : Int) : ℚ)))).length : Int) :=
  C6_IsRateExceeded_iff_count 2 3 (by decide) (by decide) (by decide) _ (by decide!)
    (by decide!) 3 (by decide!)

/-- C9. After any sequence of calls on a fresh listener with window size
`N >= 1` (an `int`, hence below `2^31`) and period `Y >= 0`, made at
non-decreasing clock readings,
`TimeToWait` with the one clock reading `now`, not before these readings,
returns a value that is not negative: `0` when the rate is not exceeded and
otherwise `Y - (now - queue[len - N])` on the trimmed queue. -/
theorem C9_TimeToWait_nonneg (N Y : Int) (hN : 1 ≤ N) (hInt : N < 2 ^ 31)
    (_hY : 0 ≤ Y) (cs : List Call)
    (hclock : (clockReadings cs).Pairwise (fun a b => a ≤ b))
    (now : ℚ) (_hnow : ∀ r ∈ clockReadings cs, r ≤ now) :
    ∃ w : ℚ,
      ((execAll (OrderListener.ctor N Y) cs).TimeToWait now now).2 = some w ∧
      0 ≤ w ∧
      (((execAll (OrderListener.ctor N Y) cs).IsRateExceeded now).2 = false → w = 0) ∧
      (((execAll (OrderListener.ctor N Y) cs).IsRateExceeded now).2 = true →
        ∃ t : ℚ,
          ((execAll (OrderListener.ctor N Y) cs).IsRateExceeded now).1.mOrderTimeQueue.get?
            (((execAll (OrderListener.ctor N Y) cs).IsRateExceeded now).1.mOrderTimeQueue.length
              - N.toNat) = some t ∧
          w = (Y : ℚ) - (now - t)) := by
  obtain ⟨hN', hY', hq, _, _⟩ := execAll_queue N Y cs hclock
  have hsize : toSizeT N = N.toNat := by
    have h := toSizeT_of_nonneg N (by omega) hInt
    omega
  obtain ⟨s, hs⟩ : ∃ s, s = execAll (OrderListener.ctor N Y) cs := ⟨_, rfl⟩
  rw [← hs] at hN' hY' hq ⊢
  have hqueue : (s.IsRateExceeded now).1.mOrderTimeQueue =
      s.mOrderTimeQueue.filter (fun x => decide (now - x ≤ (Y : ℚ))) := by
    simp only [OrderListener.IsRateExceeded, OrderListener.DeleteOldTimeStamps, hY']
    exact popOldTimeStamps_eq_filter _ _ _ hq
  have hN1 : (s.IsRateExceeded now).1.mNoOfRequests = N := hN'
  have hY1 : (s.IsRateExceeded now).1.mNoOfSeconds = Y := hY'
  have hexc : (s.IsRateExceeded now).2 =
      decide ((s.IsRateExceeded now).1.mOrderTimeQueue.length > N.toNat) := by
    simp only [OrderListener.IsRateExceeded, OrderListener.DeleteOldTimeStamps, hN', hsize]
  cases hb : (s.IsRateExceeded now).2 with
  | false =>
    refine ⟨0, ?_, le_refl 0, fun _ => rfl, fun h => by simp at h⟩
    simp [OrderListener.TimeToWait, hb]
  | true =>
    rw [hb] at hexc
    have hlen : (s.IsRateExceeded now).1.mOrderTimeQueue.length > N.toNat := by
      simpa using hexc.symm
    have hNpos : 0 < N.toNat := by omega
    have hpos : (s.IsRateExceeded now).1.mOrderTimeQueue.length - N.toNat <
        (s.IsRateExceeded now).1.mOrderTimeQueue.length := by omega
    obtain ⟨t, ht⟩ : ∃ t, (s.IsRateExceeded now).1.mOrderTimeQueue.get?
        ((s.IsRateExceeded now).1.mOrderTimeQueue.length - N.toNat) = some t :=
      ⟨_, List.get?_eq_get hpos⟩
    have htmem : t ∈ (s.IsRateExceeded now).1.mOrderTimeQueue := List.get?_mem ht
    rw [hqueue] at htmem
    have htY : now - t ≤ (Y : ℚ) := by
      simpa using (List.mem_filter.mp htmem).2
    refine ⟨(Y : ℚ) - (now - t), ?_, by linarith, fun h => by simp at h, fun _ => ⟨t, ht, rfl⟩⟩
    simp only [OrderListener.TimeToWait, hb, hN1, hY1, hsize, ht]
    simp

/-- C9 with window 1 and period 1 after two submissions at time 0, queried at
time 0. -/
theorem C9_TimeToWait_nonneg_witness :
    ∃ w : ℚ,
      ((execAll (OrderListener.ctor 1 1)
        [Call.event (Event.insertRequest 0 1 BID_SIDE 10 10),
          Call.event (Event.insertRequest 0 2 BID_SIDE 10 10)]).TimeToWait 0 0).2 = some w ∧
      0 ≤ w :=
  have h := C9_TimeToWait_nonneg 1 1 (by decide) (by decide) (by decide)
    [Call.event (Event.insertRequest 0 1 BID_SIDE 10 10),
      Call.event (Event.insertRequest 0 2 BID_SIDE 10 10)] (by decide!) 0 (by decide!)
  h.elim (fun w hw => ⟨w, hw.1, hw.2.1⟩)

/-! ## Request rate: evaluations -/

/-- C7 with window 1 and period 1 and two submissions at the same clock
reading 0: the rate is exceeded right after the second one, `TimeToWait`
returns 1, and one second later, with no further submission, the rate is still
exceeded, both entries being exactly one second old. -/
theorem C7_still_exceeded_after_TimeToWait :
    ((run (OrderListener.ctor 1 1)
        [Event.insertRequest 0 1 BID_SIDE 10 10,
          Event.insertRequest 0 2 BID_SIDE 10 10]).IsRateExceeded 0).2 = true ∧
    (((run (OrderListener.ctor 1 1)
        [Event.insertRequest 0 1 BID_SIDE 10 10,
          Event.insertRequest 0 2 BID_SIDE 10 10]).IsRateExceeded 0).1.TimeToWait 0 0).2 =
      some 1 ∧
    ((((run (OrderListener.ctor 1 1)
        [Event.insertRequest 0 1 BID_SIDE 10 10,
          Event.insertRequest 0 2 BID_SIDE 10 10]).IsRateExceeded 0).1.TimeToWait 0
            0).1.IsRateExceeded (0 + 1)).2 = true := by
  decide!

/-- C8 with window 1 and period 1.  After one submission at time 0,
`TimeToWait` at time 1/4 returns 0, and a request submitted at time 1/2 leaves
the rate exceeded.  After the two submissions at 0 and 1/2, `TimeToWait` at time
1/2 returns 1, and a request submitted at time 1/2 + 1 leaves the rate
exceeded. -/
theorem C8_exceeded_after_waiting_and_submitting :
    ((run (OrderListener.ctor 1 1)
        [Event.insertRequest 0 1 BID_SIDE 10 10]).TimeToWait (1 / 4) (1 / 4)).2 = some 0 ∧
    (((((run (OrderListener.ctor 1 1)
        [Event.insertRequest 0 1 BID_SIDE 10 10]).TimeToWait (1 / 4)
          (1 / 4)).1.OnInsertOrderRequest (1 / 2) 2 BID_SIDE 10 10).1.IsRateExceeded
            (1 / 2)).2 = true) ∧
    ((run (OrderListener.ctor 1 1)
        [Event.insertRequest 0 1 BID_SIDE 10 10,
          Event.insertRequest (1 / 2) 2 BID_SIDE 10 10]).TimeToWait (1 / 2) (1 / 2)).2 =
      some 1 ∧
    (((((run (OrderListener.ctor 1 1)
        [Event.insertRequest 0 1 BID_SIDE 10 10,
          Event.insertRequest (1 / 2) 2 BID_SIDE 10 10]).TimeToWait (1 / 2)
            (1 / 2)).1.OnInsertOrderRequest (1 / 2 + 1) 3 BID_SIDE 10 10).1.IsRateExceeded
              (1 / 2 + 1)).2 = true) := by
  decide!

/-! ## Order callbacks: further claims -/

/-- Every callback changes the minimum pending value and the confirmed value of
a side together. -/
theorem step_min_eq_confirmed (s : OrderListener) (e : Event)
    (hB : s.mMinBidPendingOrderValue = s.mBidConfirmedOrderValue)
    (hO : s.mMinOfferPendingOrderValue = s.mOfferConfirmedOrderValue) :
    (step s e).1.mMinBidPendingOrderValue = (step s e).1.mBidConfirmedOrderValue ∧
    (step s e).1.mMinOfferPendingOrderValue = (step s e).1.mOfferConfirmedOrderValue := by
  cases e with
  | insertRequest t id side price quantity =>
    simp only [step, OrderListener.OnInsertOrderRequest]
    split_ifs <;>
      simp [OrderListener.UpdateRequestRate, OrderListener.DeleteOldTimeStamps, hB, hO]
  | replaceRequest t oldId newId deltaQuantity =>
    simp only [step, OrderListener.OnReplaceOrderRequest]
    split
    · simp [OrderListener.UpdateRequestRate, OrderListener.DeleteOldTimeStamps, hB, hO]
    · split_ifs <;>
        simp [OrderListener.UpdateRequestRate, OrderListener.DeleteOldTimeStamps, hB, hO]
  | acknowledged id =>
    simp only [step, OrderListener.OnRequestAcknowledged]
    split
    · simp [hB, hO]
    · split_ifs <;> (split <;> (try split)) <;> simp [hB, hO]
  | rejected id =>
    simp only [step, OrderListener.OnRequestRejected]
    split
    · simp [hB, hO]
    · split_ifs <;> (split <;> (try split)) <;> simp [hB, hO]
  | filled id quantityFilled =>
    simp only [step, OrderListener.OnOrderFilled]
    split
    · simp [hB, hO]
    · split_ifs <;> simp [hB, hO]

theorem run_min_eq_confirmed :
    ∀ (es : List Event) (s : OrderListener),
      s.mMinBidPendingOrderValue = s.mBidConfirmedOrderValue →
      s.mMinOfferPendingOrderValue = s.mOfferConfirmedOrderValue →
      (run s es).mMinBidPendingOrderValue = (run s es).mBidConfirmedOrderValue ∧
      (run s es).mMinOfferPendingOrderValue = (run s es).mOfferConfirmedOrderValue := by
  intro es
  induction es with
  | nil => intro s hB hO; exact ⟨hB, hO⟩
  | cons e es ih =>
    intro s hB hO
    obtain ⟨h1, h2⟩ := step_min_eq_confirmed s e hB hO
    exact ih _ h1 h2

/-- C20. In every state reached from a fresh listener by any sequence of the
five callbacks with any arguments, the minimum pending order value of a side
equals the confirmed order value of that side, for both sides. -/
theorem C20_min_pending_equals_confirmed (noOfRequests noOfSeconds : Int)
    (es : List Event) (side : Char) :
    (run (OrderListener.ctor noOfRequests noOfSeconds) es).MinPendingOrderValue side =
      (run (OrderListener.ctor noOfRequests noOfSeconds) es).ConfirmedOrderValue side := by
  obtain ⟨h1, h2⟩ := run_min_eq_confirmed es (OrderListener.ctor noOfRequests noOfSeconds)
    rfl rfl
  unfold OrderListener.MinPendingOrderValue OrderListener.ConfirmedOrderValue
  split_ifs
  · exact h1
  · exact h2

/-- Diagnostic of a fill of an order that is in the table. -/
theorem OnOrderFilled_diagnostic (s : OrderListener) (id quantityFilled : Int) (o : Order)
    (hfind : UMap.find s.mOrderMap id = some o) :
    (s.OnOrderFilled id quantityFilled).2 =
      if quantityFilled ≤ o.mQuantity then Diagnostic.ok else Diagnostic.assertionViolated := by
  simp only [OrderListener.OnOrderFilled, hfind]
  split_ifs <;> rfl

/-- C11 at a listener with window 1 and period 1 that has one submission at
time 0: a replace request at time 0 for id 7, which is not in the order table,
appends its clock reading to the queue of time stamps, and `IsRateExceeded` at
time 0 answers true after the call and false without it. -/
theorem C11_unknown_old_id_changes_queue :
    UMap.find (run (OrderListener.ctor 1 1)
      [Event.insertRequest 0 1 BID_SIDE 10 10]).mOrderMap 7 = none ∧
    ((run (OrderListener.ctor 1 1)
      [Event.insertRequest 0 1 BID_SIDE 10 10]).OnReplaceOrderRequest 0 7 8 1).1.mOrderTimeQueue
      ≠ (run (OrderListener.ctor 1 1)
      [Event.insertRequest 0 1 BID_SIDE 10 10]).mOrderTimeQueue ∧
    (((run (OrderListener.ctor 1 1)
      [Event.insertRequest 0 1 BID_SIDE 10 10]).OnReplaceOrderRequest 0 7 8
        1).1.IsRateExceeded 0).2 = true ∧
    ((run (OrderListener.ctor 1 1)
      [Event.insertRequest 0 1 BID_SIDE 10 10]).IsRateExceeded 0).2 = false := by
  decide!

/-- C11, amended. For an old id that is not in the order table,
`OnReplaceOrderRequest` reports the unknown id and leaves the order table, the
replacement link table, the net filled quantity and the six order values
unchanged; the call is recorded as a submission like any request: the queue of
time stamps is trimmed at the clock reading of the call, which is then
appended. -/
theorem C11_unknown_old_id_records_submission_only (s : OrderListener) (currentTime : ℚ)
    (oldId newId deltaQuantity : Int)
    (habsent : UMap.find s.mOrderMap oldId = none) :
    (s.OnReplaceOrderRequest currentTime oldId newId deltaQuantity).2 =
      Diagnostic.orderIdNotFound ∧
    (s.OnReplaceOrderRequest currentTime oldId newId deltaQuantity).1 =
      { s with mOrderTimeQueue :=
          popOldTimeStamps s.mNoOfSeconds currentTime s.mOrderTimeQueue ++ [currentTime] } ∧
    (s.OnReplaceOrderRequest currentTime oldId newId deltaQuantity).1.mOrderMap =
      s.mOrderMap ∧
    (s.OnReplaceOrderRequest currentTime oldId newId deltaQuantity).1.mOrderModificationMap =
      s.mOrderModificationMap ∧
    (s.OnReplaceOrderRequest currentTime oldId newId deltaQuantity).1.mNetFilledQuantity =
      s.mNetFilledQuantity ∧
    (∀ side : Char,
      (s.OnReplaceOrderRequest currentTime oldId newId deltaQuantity).1.ConfirmedOrderValue side =
        s.ConfirmedOrderValue side ∧
      (s.OnReplaceOrderRequest currentTime oldId newId deltaQuantity).1.MinPendingOrderValue side =
        s.MinPendingOrderValue side ∧
      (s.OnReplaceOrderRequest currentTime oldId newId deltaQuantity).1.MaxPendingOrderValue side =
        s.MaxPendingOrderValue side) ∧
    (s.OnReplaceOrderRequest currentTime oldId newId deltaQuantity).1.mOrderTimeQueue =
      popOldTimeStamps s.mNoOfSeconds currentTime s.mOrderTimeQueue ++ [currentTime] := by
  have h1 : UMap.find (s.UpdateRequestRate currentTime).mOrderMap oldId = none := habsent
  have hres : s.OnReplaceOrderRequest currentTime oldId newId deltaQuantity =
      (s.UpdateRequestRate currentTime, Diagnostic.orderIdNotFound) := by
    simp only [OrderListener.OnReplaceOrderRequest, h1]
  rw [hres]
  refine ⟨rfl, rfl, rfl, rfl, rfl, fun side => ⟨rfl, rfl, rfl⟩, rfl⟩

/-- C11, amended, on the fresh listener, whose order table is empty. -/
theorem C11_unknown_old_id_records_submission_only_witness :
    ((OrderListener.ctor 2 3).OnReplaceOrderRequest 5 7 8 1).2 = Diagnostic.orderIdNotFound ∧
    ((OrderListener.ctor 2 3).OnReplaceOrderRequest 5 7 8 1).1.mOrderTimeQueue =
      popOldTimeStamps (OrderListener.ctor 2 3).mNoOfSeconds 5
        (OrderListener.ctor 2 3).mOrderTimeQueue ++ [5] :=
  have h := C11_unknown_old_id_records_submission_only (OrderListener.ctor 2 3) 5 7 8 1 rfl
  ⟨h.1, h.2.2.2.2.2.2⟩

/-- C14 at the bid of 10 at 10 acknowledged under id 1: `OnOrderFilled(1, 15)`
violates the assertion on the fill quantity, and with the assertion compiled
out the fill is applied: the net filled quantity becomes 15, the three values
of the bid side -50, and the order stays in the table with quantity -5. -/
theorem C14_over_fill_applied :
    UMap.find (run (OrderListener.ctor 2 3)
      [Event.insertRequest 0 1 BID_SIDE 10 10, Event.acknowledged 1]).mOrderMap 1 =
      some (Order.mk 10 1 10 BID_SIDE) ∧
    (run (OrderListener.ctor 2 3)
      [Event.insertRequest 0 1 BID_SIDE 10 10, Event.acknowledged 1]).mNetFilledQuantity = 0 ∧
    ((run (OrderListener.ctor 2 3)
      [Event.insertRequest 0 1 BID_SIDE 10 10, Event.acknowledged 1]).OnOrderFilled 1 15).2 =
      Diagnostic.assertionViolated ∧
    ((run (OrderListener.ctor 2 3)
      [Event.insertRequest 0 1 BID_SIDE 10 10, Event.acknowledged 1]).OnOrderFilled 1
        15).1.mNetFilledQuantity = 15 ∧
    ((run (OrderListener.ctor 2 3)
      [Event.insertRequest 0 1 BID_SIDE 10 10, Event.acknowledged 1]).OnOrderFilled 1
        15).1.mBidConfirmedOrderValue = -50 ∧
    ((run (OrderListener.ctor 2 3)
      [Event.insertRequest 0 1 BID_SIDE 10 10, Event.acknowledged 1]).OnOrderFilled 1
        15).1.mMinBidPendingOrderValue = -50 ∧
    ((run (OrderListener.ctor 2 3)
      [Event.insertRequest 0 1 BID_SIDE 10 10, Event.acknowledged 1]).OnOrderFilled 1
        15).1.mMaxBidPendingOrderValue = -50 ∧
    UMap.find ((run (OrderListener.ctor 2 3)
      [Event.insertRequest 0 1 BID_SIDE 10 10, Event.acknowledged 1]).OnOrderFilled 1
        15).1.mOrderMap 1 = some (Order.mk 10 1 (-5) BID_SIDE) ∧
    ((run (OrderListener.ctor 2 3)
      [Event.insertRequest 0 1 BID_SIDE 10 10, Event.acknowledged 1]).OnOrderFilled 1
        15).1 ≠ run (OrderListener.ctor 2 3)
      [Event.insertRequest 0 1 BID_SIDE 10 10, Event.acknowledged 1] := by
  decide!

/-- C14, amended. For an order of the table with remaining quantity `Q` and a
fill `q > Q` whose difference `Q - q` stays in the range of `int`
(`Q - q >= -2^31`), `OnOrderFilled` violates the assertion `quantityFilled <=
GetQuantity()` of the source, which stops a build with assertions; no error is
returned, and where the assertion is compiled out the fill is applied like any
other: the remaining quantity becomes `Q - q`, which is negative, the order
stays in the table, and for a bid or an offer the net filled quantity changes
by `q` and, in exact arithmetic, the three values of the side of the order go
down by `q * price`. -/
theorem C14_over_fill_asserted_then_applied (s : OrderListener) (id q : Int) (o : Order)
    (hfind : UMap.find s.mOrderMap id = some o)
    (hover : o.mQuantity < q)
    (_hQ : -2 ^ 31 ≤ o.mQuantity) (_hq : q < 2 ^ 31)
    (_hrange : -2 ^ 31 ≤ o.mQuantity - q) :
    (s.OnOrderFilled id q).2 = Diagnostic.assertionViolated ∧
    UMap.find (s.OnOrderFilled id q).1.mOrderMap id =
      some (o.SetQuantity (o.mQuantity - q)) ∧
    (o.SetQuantity (o.mQuantity - q)).mQuantity < 0 ∧
    ((o.mSide = BID_SIDE ∨ o.mSide = OFFER_SIDE) →
      (s.OnOrderFilled id q).1.mNetFilledQuantity =
        s.mNetFilledQuantity + (if o.mSide = BID_SIDE then q else -q) ∧
      (s.OnOrderFilled id q).1.ConfirmedOrderValue o.mSide =
        s.ConfirmedOrderValue o.mSide - (q : ℚ) * o.mPrice ∧
      (s.OnOrderFilled id q).1.MinPendingOrderValue o.mSide =
        s.MinPendingOrderValue o.mSide - (q : ℚ) * o.mPrice ∧
      (s.OnOrderFilled id q).1.MaxPendingOrderValue o.mSide =
        s.MaxPendingOrderValue o.mSide - (q : ℚ) * o.mPrice) := by
  have hne : ¬ (o.mQuantity - q = 0) := by omega
  refine ⟨?_, ?_, ?_, ?_⟩
  · rw [OnOrderFilled_diagnostic s id q o hfind, if_neg (by omega)]
  · simp only [OrderListener.OnOrderFilled, hfind, if_neg hne]
    split_ifs <;> simp [UMap.find_modify_self, hfind]
  · show o.mQuantity - q < 0
    omega
  · intro hside
    obtain ⟨hn, hc, hmin, hmax, _⟩ := OnOrderFilled_found s id q o hfind hside
    exact ⟨hn, hc, hmin, hmax⟩

/-- C14, amended, at the bid of 10 at 10 acknowledged under id 1 and the fill of
15. -/
theorem C14_over_fill_asserted_then_applied_witness :
    ((run (OrderListener.ctor 2 3)
      [Event.insertRequest 0 1 BID_SIDE 10 10, Event.acknowledged 1]).OnOrderFilled 1 15).2 =
      Diagnostic.assertionViolated ∧
    UMap.find ((run (OrderListener.ctor 2 3)
      [Event.insertRequest 0 1 BID_SIDE 10 10, Event.acknowledged 1]).OnOrderFilled 1
        15).1.mOrderMap 1 = some ((Order.mk 10 1 10 BID_SIDE).SetQuantity (10 - 15)) ∧
    ((Order.mk 10 1 10 BID_SIDE).SetQuantity (10 - 15)).mQuantity < 0 :=
  have h := C14_over_fill_asserted_then_applied
    (run (OrderListener.ctor 2 3)
      [Event.insertRequest 0 1 BID_SIDE 10 10, Event.acknowledged 1])
    1 15 (Order.mk 10 1 10 BID_SIDE) (by decide!) (by decide) (by decide) (by decide)
    (by decide)
  ⟨h.1, h.2.1, h.2.2.1⟩

/-- C13 at Insert(1, Bid, 10, 10), Ack(1), Replace(1 -> 2, 5), Ack(2): every
event is correctly sequenced and every request is resolved (the link table is
empty), the confirmed value of the bid side is 150, and the only order of the
table is the one under id 2 with quantity 5 at price 10, worth 50. -/
theorem C13_confirmed_differs_from_table :
    diagnostics (OrderListener.ctor 2 3)
      [Event.insertRequest 0 1 BID_SIDE 10 10, Event.acknowledged 1,
        Event.replaceRequest 1 1 2 5, Event.acknowledged 2] =
      [Diagnostic.ok, Diagnostic.ok, Diagnostic.ok, Diagnostic.ok] ∧
    (run (OrderListener.ctor 2 3)
      [Event.insertRequest 0 1 BID_SIDE 10 10, Event.acknowledged 1,
        Event.replaceRequest 1 1 2 5, Event.acknowledged 2]).mOrderModificationMap = [] ∧
    (run (OrderListener.ctor 2 3)
      [Event.insertRequest 0 1 BID_SIDE 10 10, Event.acknowledged 1,
        Event.replaceRequest 1 1 2 5, Event.acknowledged 2]).mOrderMap =
      [(2, Order.mk 10 2 5 BID_SIDE)] ∧
    (run (OrderListener.ctor 2 3)
      [Event.insertRequest 0 1 BID_SIDE 10 10, Event.acknowledged 1,
        Event.replaceRequest 1 1 2 5, Event.acknowledged 2]).ConfirmedOrderValue BID_SIDE =
      150 ∧
    orderTableValue (run (OrderListener.ctor 2 3)
      [Event.insertRequest 0 1 BID_SIDE 10 10, Event.acknowledged 1,
        Event.replaceRequest 1 1 2 5, Event.acknowledged 2]).mOrderMap BID_SIDE = 50 := by
  decide!

/-! ## The replacement link table -/

theorem UMap.mem_of_find {α : Type} (m : List (Int × α)) (key : Int) (v : α)
    (h : UMap.find m key = some v) : (key, v) ∈ m := by
  induction m with
  | nil => simp [UMap.find] at h
  | cons e rest ih =>
    obtain ⟨k', v'⟩ := e
    by_cases hk : k' = key
    · simp only [UMap.find, hk, if_true, Option.some.injEq] at h
      simp [hk, h]
    · simp only [UMap.find, hk, if_false] at h
      exact List.mem_cons_of_mem _ (ih h)

theorem UMap.mem_of_mem_erase {α : Type} (m : List (Int × α)) (key : Int) (e : Int × α)
    (h : e ∈ UMap.erase m key) : e ∈ m := by
  induction m with
  | nil => simp [UMap.erase] at h
  | cons x rest ih =>
    obtain ⟨k', v'⟩ := x
    by_cases hk : k' = key
    · simp only [UMap.erase, hk, if_true] at h
      exact List.mem_cons_of_mem _ (ih h)
    · simp only [UMap.erase, hk, if_false, List.mem_cons] at h
      rcases h with h | h
      · simp [h]
      · exact List.mem_cons_of_mem _ (ih h)

theorem UMap.mem_of_mem_assign {α : Type} (m : List (Int × α)) (key : Int) (v : α)
    (e : Int × α) (h : e ∈ UMap.assign m key v) : e = (key, v) ∨ e ∈ m := by
  induction m with
  | nil =>
    simp only [UMap.assign, List.mem_singleton] at h
    exact Or.inl h
  | cons x rest ih =>
    obtain ⟨k', v'⟩ := x
    by_cases hk : k' = key
    · simp only [UMap.assign, hk, if_true, List.mem_cons] at h
      rcases h with h | h
      · exact Or.inl h
      · exact Or.inr (List.mem_cons_of_mem _ h)
    · simp only [UMap.assign, hk, if_false, List.mem_cons] at h
      rcases h with h | h
      · exact Or.inr (by simp [h])
      · rcases ih h with h' | h'
        · exact Or.inl h'
        · exact Or.inr (List.mem_cons_of_mem _ h')

/-- An entry of the link table after a callback was there before, or the
callback is a replace request and the entry links its new id to its old id. -/
theorem step_link_entries (s : OrderListener) (e : Event) (x : Int × Int)
    (hx : x ∈ (step s e).1.mOrderModificationMap) :
    x ∈ s.mOrderModificationMap ∨
      ∃ t oldId newId deltaQuantity,
        e = Event.replaceRequest t oldId newId deltaQuantity ∧ x = (newId, oldId) := by
  cases e with
  | insertRequest t id side price quantity =>
    left
    simp only [step, OrderListener.OnInsertOrderRequest] at hx
    split_ifs at hx <;> exact hx
  | replaceRequest t oldId newId deltaQuantity =>
    simp only [step, OrderListener.OnReplaceOrderRequest] at hx
    split at hx
    · left; exact hx
    · have hx' : x ∈ UMap.assign s.mOrderModificationMap newId oldId := by
        split_ifs at hx <;> exact hx
      rcases UMap.mem_of_mem_assign _ _ _ _ hx' with h | h
      · right; exact ⟨t, oldId, newId, deltaQuantity, rfl, h⟩
      · left; exact h
  | acknowledged id =>
    left
    simp only [step, OrderListener.OnRequestAcknowledged] at hx
    split at hx
    · exact hx
    · split at hx
      · split_ifs at hx <;> exact hx
      · have hx' : x ∈ UMap.erase s.mOrderModificationMap id := by
          split at hx <;> (split_ifs at hx <;> exact hx)
        exact UMap.mem_of_mem_erase _ _ _ hx'
  | rejected id =>
    left
    simp only [step, OrderListener.OnRequestRejected] at hx
    split at hx
    · exact hx
    · split at hx
      · split_ifs at hx <;> exact hx
      · have hx' : x ∈ UMap.erase s.mOrderModificationMap id := by
          split at hx <;> (split_ifs at hx <;> exact hx)
        exact UMap.mem_of_mem_erase _ _ _ hx'
  | filled id quantityFilled =>
    left
    simp only [step, OrderListener.OnOrderFilled] at hx
    split at hx
    · exact hx
    · split_ifs at hx <;> exact hx

/-- A callback that is not a second replacement keeps the link table free of
two new ids for one old id. -/
theorem step_link_single (s : OrderListener) (e : Event)
    (hinv : ∀ a ∈ s.mOrderModificationMap, ∀ b ∈ s.mOrderModificationMap,
      a.2 = b.2 → a.1 = b.1)
    (hguard : replacesOnce s e = true) :
    ∀ a ∈ (step s e).1.mOrderModificationMap, ∀ b ∈ (step s e).1.mOrderModificationMap,
      a.2 = b.2 → a.1 = b.1 := by
  intro a ha b hb hab
  rcases step_link_entries s e a ha with ha' | ⟨t, oldId, newId, d, he, ha'⟩
  · rcases step_link_entries s e b hb with hb' | ⟨t, oldId, newId, d, he, hb'⟩
    · exact hinv a ha' b hb' hab
    · subst he
      simp only [replacesOnce, List.all_eq_true, decide_eq_true_eq] at hguard
      rw [hb']
      rw [hb'] at hab
      exact hguard a ha' hab
  · subst he
    rcases step_link_entries _ _ b hb with hb' | ⟨t', oldId', newId', d', he', hb'⟩
    · simp only [replacesOnce, List.all_eq_true, decide_eq_true_eq] at hguard
      rw [ha']
      rw [ha'] at hab
      exact (hguard b hb' hab.symm).symm
    · cases he'
      rw [ha', hb']

theorem run_link_single :
    ∀ (es : List Event) (s : OrderListener),
      (∀ a ∈ s.mOrderModificationMap, ∀ b ∈ s.mOrderModificationMap, a.2 = b.2 → a.1 = b.1) →
      replacesOnceAll s es = true →
      ∀ a ∈ (run s es).mOrderModificationMap, ∀ b ∈ (run s es).mOrderModificationMap,
        a.2 = b.2 → a.1 = b.1 := by
  intro es
  induction es with
  | nil => intro s hinv _; exact hinv
  | cons e es ih =>
    intro s hinv hguard
    simp only [replacesOnceAll, Bool.and_eq_true] at hguard
    exact ih _ (step_link_single s e hinv hguard.1) hguard.2

/-- C15 at Insert(1, Bid, 10, 10), Ack(1), Replace(1 -> 2, 5), Replace(1 -> 3,
5): no assertion is violated, and the link table maps the two new ids 2 and 3 to
the old id 1. -/
theorem C15_two_pending_replacements_of_one_order :
    diagnostics (OrderListener.ctor 2 3)
      [Event.insertRequest 0 1 BID_SIDE 10 10, Event.acknowledged 1,
        Event.replaceRequest 1 1 2 5, Event.replaceRequest 2 1 3 5] =
      [Diagnostic.ok, Diagnostic.ok, Diagnostic.ok, Diagnostic.ok] ∧
    UMap.find (run (OrderListener.ctor 2 3)
      [Event.insertRequest 0 1 BID_SIDE 10 10, Event.acknowledged 1,
        Event.replaceRequest 1 1 2 5,
        Event.replaceRequest 2 1 3 5]).mOrderModificationMap 2 = some 1 ∧
    UMap.find (run (OrderListener.ctor 2 3)
      [Event.insertRequest 0 1 BID_SIDE 10 10, Event.acknowledged 1,
        Event.replaceRequest 1 1 2 5,
        Event.replaceRequest 2 1 3 5]).mOrderModificationMap 3 = some 1 ∧
    ¬ (∀ newId1 newId2 oldId : Int,
        UMap.find (run (OrderListener.ctor 2 3)
          [Event.insertRequest 0 1 BID_SIDE 10 10, Event.acknowledged 1,
            Event.replaceRequest 1 1 2 5,
            Event.replaceRequest 2 1 3 5]).mOrderModificationMap newId1 = some oldId →
        UMap.find (run (OrderListener.ctor 2 3)
          [Event.insertRequest 0 1 BID_SIDE 10 10, Event.acknowledged 1,
            Event.replaceRequest 1 1 2 5,
            Event.replaceRequest 2 1 3 5]).mOrderModificationMap newId2 = some oldId →
        newId1 = newId2) := by
  have h2 : UMap.find (run (OrderListener.ctor 2 3)
      [Event.insertRequest 0 1 BID_SIDE 10 10, Event.acknowledged 1,
        Event.replaceRequest 1 1 2 5,
        Event.replaceRequest 2 1 3 5]).mOrderModificationMap 2 = some 1 := by decide!
  have h3 : UMap.find (run (OrderListener.ctor 2 3)
      [Event.insertRequest 0 1 BID_SIDE 10 10, Event.acknowledged 1,
        Event.replaceRequest 1 1 2 5,
        Event.replaceRequest 2 1 3 5]).mOrderModificationMap 3 = some 1 := by decide!
  refine ⟨by decide!, h2, h3, ?_⟩
  intro h
  have := h 2 3 1 h2 h3
  omega

/-- C15, amended. In every state reached from a fresh listener by a sequence of
the five callbacks in which no replace request names an old id whose replacement
under another new id is still pending in the link table, no two distinct new ids
of the link table map to the same old id. -/
theorem C15_one_pending_replacement_per_old_id (noOfRequests noOfSeconds : Int)
    (es : List Event)
    (hguard : replacesOnceAll (OrderListener.ctor noOfRequests noOfSeconds) es = true) :
    ∀ newId1 newId2 oldId : Int,
      UMap.find (run (OrderListener.ctor noOfRequests noOfSeconds)
        es).mOrderModificationMap newId1 = some oldId →
      UMap.find (run (OrderListener.ctor noOfRequests noOfSeconds)
        es).mOrderModificationMap newId2 = some oldId →
      newId1 = newId2 := by
  intro newId1 newId2 oldId h1 h2
  have hinv := run_link_single es (OrderListener.ctor noOfRequests noOfSeconds)
    (by intro a ha; simp [OrderListener.ctor] at ha) hguard
  exact hinv (newId1, oldId) (UMap.mem_of_find _ _ _ h1) (newId2, oldId)
    (UMap.mem_of_find _ _ _ h2) rfl

/-- C15, amended, at Insert(1, Bid, 10, 10), Ack(1), Insert(4, Bid, 10, 10),
Replace(1 -> 2, 5), Replace(4 -> 5, 5), where two replacements of different
orders are pending: the sequence has no second replacement, the link table maps
the new id 2 to the old id 1, and looking that link up twice gives one new
id. -/
theorem C15_one_pending_replacement_per_old_id_witness :
    replacesOnceAll (OrderListener.ctor 2 3)
      [Event.insertRequest 0 1 BID_SIDE 10 10, Event.acknowledged 1,
        Event.insertRequest 1 4 BID_SIDE 10 10,
        Event.replaceRequest 2 1 2 5, Event.replaceRequest 3 4 5 5] = true ∧
    UMap.find (run (OrderListener.ctor 2 3)
      [Event.insertRequest 0 1 BID_SIDE 10 10, Event.acknowledged 1,
        Event.insertRequest 1 4 BID_SIDE 10 10,
        Event.replaceRequest 2 1 2 5,
        Event.replaceRequest 3 4 5 5]).mOrderModificationMap 2 = some 1 ∧
    (2 : Int) = 2 :=
  ⟨by decide!, by decide!,
    C15_one_pending_replacement_per_old_id 2 3
      [Event.insertRequest 0 1 BID_SIDE 10 10, Event.acknowledged 1,
        Event.insertRequest 1 4 BID_SIDE 10 10,
        Event.replaceRequest 2 1 2 5, Event.replaceRequest 3 4 5 5]
      (by decide!) 2 2 1 (by decide!) (by decide!)⟩

/-! ## The arithmetic of the machine -/

/-- The halving loop finds the exponent of a positive number whenever it is
allowed at least as many halvings as the number itself. -/
theorem Binary64.log2Floor_loop_spec :
    ∀ (fuel n : Nat), 0 < n → n ≤ fuel →
      2 ^ Binary64.log2Floor.loop fuel n ≤ n ∧ n < 2 ^ (Binary64.log2Floor.loop fuel n + 1) := by
  intro fuel
  induction fuel with
  | zero => intro n h0 h1; omega
  | succ fuel ih =>
    intro n h0 h1
    by_cases h2 : n < 2
    · have h3 : n = 1 := by omega
      subst h3
      simp [Binary64.log2Floor.loop]
    · simp only [Binary64.log2Floor.loop, if_neg h2]
      obtain ⟨hlo, hhi⟩ := ih (n / 2) (by omega) (by omega)
      have e1 : 2 ^ (Binary64.log2Floor.loop fuel (n / 2) + 1) =
          2 * 2 ^ Binary64.log2Floor.loop fuel (n / 2) := by ring
      have e2 : 2 ^ (Binary64.log2Floor.loop fuel (n / 2) + 1 + 1) =
          4 * 2 ^ Binary64.log2Floor.loop fuel (n / 2) := by ring
      rw [e1] at hhi
      rw [e1, e2]
      omega

/-- For a positive `n`, `2^(log2Floor n) <= n < 2^(log2Floor n + 1)`. -/
theorem Binary64.log2Floor_spec (n : Nat) (h : 0 < n) :
    2 ^ Binary64.log2Floor n ≤ n ∧ n < 2 ^ (Binary64.log2Floor n + 1) :=
  Binary64.log2Floor_loop_spec n n h (le_refl n)

theorem Binary64.pow2_eq_zpow (e : Int) : Binary64.pow2 e = (2 : ℚ) ^ e := by
  unfold Binary64.pow2
  by_cases h : 0 ≤ e
  · rw [if_pos h]
    obtain ⟨n, rfl⟩ := Int.eq_ofNat_of_zero_le h
    simp
  · rw [if_neg h]
    obtain ⟨n, hn⟩ := Int.exists_eq_neg_ofNat (by omega : e ≤ 0)
    subst hn
    simp

/-- For a positive rational `a`, `2^(binade a) <= a < 2^(binade a + 1)`. -/
theorem Binary64.binade_spec (a : ℚ) (h : 0 < a) :
    (2 : ℚ) ^ Binary64.binade a ≤ a ∧ a < (2 : ℚ) ^ (Binary64.binade a + 1) := by
  have hnum : 0 < a.num := Rat.num_pos.mpr h
  have hden : 0 < a.den := a.den_pos
  obtain ⟨n1, n2⟩ := Binary64.log2Floor_spec a.num.natAbs (by omega)
  obtain ⟨d1, d2⟩ := Binary64.log2Floor_spec a.den hden
  have hnumq : ((a.num.natAbs : Nat) : ℚ) = (a.num : ℚ) := by
    rw [Nat.cast_natAbs, abs_of_pos hnum]
  have hmul : a * (a.den : ℚ) = ((a.num.natAbs : Nat) : ℚ) := by
    rw [hnumq]
    exact Rat.mul_den_eq_num a
  have hdq : (0 : ℚ) < (a.den : ℚ) := by exact_mod_cast hden
  have n1q : (2 : ℚ) ^ Binary64.log2Floor a.num.natAbs ≤ ((a.num.natAbs : Nat) : ℚ) := by
    exact_mod_cast n1
  have n2q : ((a.num.natAbs : Nat) : ℚ) < (2 : ℚ) ^ (Binary64.log2Floor a.num.natAbs + 1) := by
    exact_mod_cast n2
  have d1q : (2 : ℚ) ^ Binary64.log2Floor a.den ≤ (a.den : ℚ) := by exact_mod_cast d1
  have d2q : (a.den : ℚ) < (2 : ℚ) ^ (Binary64.log2Floor a.den + 1) := by exact_mod_cast d2
  have hpow : ∀ k : Nat, (0 : ℚ) < (2 : ℚ) ^ k := fun k => by positivity
  have hupper : a < (2 : ℚ) ^ (((Binary64.log2Floor a.num.natAbs : Int) -
      (Binary64.log2Floor a.den : Int)) + 1) := by
    have e1 : (2 : ℚ) ^ (((Binary64.log2Floor a.num.natAbs : Int) -
        (Binary64.log2Floor a.den : Int)) + 1) =
        (2 : ℚ) ^ (Binary64.log2Floor a.num.natAbs + 1) /
          (2 : ℚ) ^ Binary64.log2Floor a.den := by
      rw [show ((Binary64.log2Floor a.num.natAbs : Int) - (Binary64.log2Floor a.den : Int)) + 1 =
        ((Binary64.log2Floor a.num.natAbs + 1 : Nat) : Int) - (Binary64.log2Floor a.den : Int) by
          push_cast; ring]
      rw [zpow_sub₀ (by norm_num : (2 : ℚ) ≠ 0), zpow_natCast, zpow_natCast]
    rw [e1, lt_div_iff₀ (hpow _)]
    calc a * (2 : ℚ) ^ Binary64.log2Floor a.den
        ≤ a * (a.den : ℚ) := mul_le_mul_of_nonneg_left d1q (le_of_lt h)
      _ = ((a.num.natAbs : Nat) : ℚ) := hmul
      _ < (2 : ℚ) ^ (Binary64.log2Floor a.num.natAbs + 1) := n2q
  have hlower : (2 : ℚ) ^ (((Binary64.log2Floor a.num.natAbs : Int) -
      (Binary64.log2Floor a.den : Int)) - 1) ≤ a := by
    have e1 : (2 : ℚ) ^ (((Binary64.log2Floor a.num.natAbs : Int) -
        (Binary64.log2Floor a.den : Int)) - 1) =
        (2 : ℚ) ^ Binary64.log2Floor a.num.natAbs /
          (2 : ℚ) ^ (Binary64.log2Floor a.den + 1) := by
      rw [show ((Binary64.log2Floor a.num.natAbs : Int) - (Binary64.log2Floor a.den : Int)) - 1 =
        ((Binary64.log2Floor a.num.natAbs : Nat) : Int) -
          ((Binary64.log2Floor a.den + 1 : Nat) : Int) by push_cast; ring]
      rw [zpow_sub₀ (by norm_num : (2 : ℚ) ≠ 0), zpow_natCast, zpow_natCast]
    rw [e1, div_le_iff₀ (hpow _)]
    calc (2 : ℚ) ^ Binary64.log2Floor a.num.natAbs
        ≤ ((a.num.natAbs : Nat) : ℚ) := n1q
      _ = a * (a.den : ℚ) := hmul.symm
      _ ≤ a * (2 : ℚ) ^ (Binary64.log2Floor a.den + 1) :=
          mul_le_mul_of_nonneg_left (le_of_lt d2q) (le_of_lt h)
  unfold Binary64.binade
  simp only [Binary64.pow2_eq_zpow]
  split_ifs with hcase
  · exact ⟨hcase, hupper⟩
  · refine ⟨hlower, ?_⟩
    rw [sub_add_cancel]
    exact not_le.mp hcase

/-- The rounding of a positive rational is a whole multiple of the spacing of
its binade and lies within half that spacing of it. -/
theorem Binary64.round_nearest (x : ℚ) (hx : 0 < x) :
    ∃ n : Int,
      Binary64.round x = (n : ℚ) * (2 : ℚ) ^ (max (Binary64.binade x) (-1022) - 52) ∧
      |Binary64.round x - x| ≤ (2 : ℚ) ^ (max (Binary64.binade x) (-1022) - 52) / 2 := by
  have hne : x ≠ 0 := ne_of_gt hx
  have hnn : ¬ x < 0 := not_lt.mpr (le_of_lt hx)
  have hulp : (0 : ℚ) < (2 : ℚ) ^ (max (Binary64.binade x) (-1022) - 52) := by positivity
  obtain ⟨ulp, hu⟩ : ∃ u, u = (2 : ℚ) ^ (max (Binary64.binade x) (-1022) - 52) := ⟨_, rfl⟩
  rw [← hu] at hulp ⊢
  have hfl1 : ((Int.floor (x / ulp) : Int) : ℚ) ≤ x / ulp := Int.floor_le _
  have hfl2 : x / ulp < ((Int.floor (x / ulp) : Int) : ℚ) + 1 := Int.lt_floor_add_one _
  have hxq : x = x / ulp * ulp := by field_simp
  have key : ∀ n : Int, |(n : ℚ) - x / ulp| ≤ 1 / 2 → |(n : ℚ) * ulp - x| ≤ ulp / 2 := by
    intro n hn
    have e : (n : ℚ) * ulp - x = ((n : ℚ) - x / ulp) * ulp := by
      rw [sub_mul, ← hxq]
    rw [e, abs_mul, abs_of_pos hulp]
    calc |(n : ℚ) - x / ulp| * ulp ≤ 1 / 2 * ulp := mul_le_mul_of_nonneg_right hn (le_of_lt hulp)
      _ = ulp / 2 := by ring
  have hround : Binary64.round x =
      ((if x / ulp - ((Int.floor (x / ulp) : Int) : ℚ) < 1 / 2 then Int.floor (x / ulp)
        else if 1 / 2 < x / ulp - ((Int.floor (x / ulp) : Int) : ℚ) then Int.floor (x / ulp) + 1
        else if Int.floor (x / ulp) % 2 = 0 then Int.floor (x / ulp)
        else Int.floor (x / ulp) + 1 : Int) : ℚ) * ulp := by
    unfold Binary64.round
    simp only [if_neg hne, if_neg hnn, Binary64.pow2_eq_zpow, ← hu]
  rw [hround]
  refine ⟨_, rfl, ?_⟩
  apply key
  split_ifs with h1 h2 h3
  · rw [abs_le]; constructor <;> linarith
  · rw [abs_le]; push_cast; constructor <;> linarith
  · have h4 : x / ulp - ((Int.floor (x / ulp) : Int) : ℚ) = 1 / 2 :=
      le_antisymm (not_lt.mp h2) (not_lt.mp h1)
    rw [abs_le]; constructor <;> linarith
  · have h4 : x / ulp - ((Int.floor (x / ulp) : Int) : ℚ) = 1 / 2 :=
      le_antisymm (not_lt.mp h2) (not_lt.mp h1)
    rw [abs_le]; push_cast; constructor <;> linarith

/-- With exact arithmetic the loop of the machine is the loop of the exact
callbacks. -/
theorem machine_popOldTimeStamps_exact (noOfSeconds : Int) (currentTime : ℚ) :
    ∀ q : List ℚ,
      Machine.popOldTimeStamps Arithmetic.exact noOfSeconds currentTime q =
        popOldTimeStamps noOfSeconds currentTime q := by
  intro q
  induction q with
  | nil => rfl
  | cons oldTime rest ih =>
    simp only [Machine.popOldTimeStamps, popOldTimeStamps, ih]
    simp [Arithmetic.exact]

theorem machine_UpdateRequestRate_exact (s : OrderListener) (currentTime : ℚ) :
    Machine.UpdateRequestRate Arithmetic.exact s currentTime =
      s.UpdateRequestRate currentTime := by
  simp [Machine.UpdateRequestRate, Machine.DeleteOldTimeStamps,
    OrderListener.UpdateRequestRate, OrderListener.DeleteOldTimeStamps,
    machine_popOldTimeStamps_exact]

/-- With exact arithmetic `IsRateExceeded` of the machine is the exact one. -/
theorem machine_IsRateExceeded_exact (s : OrderListener) (currentTime : ℚ) :
    Machine.IsRateExceeded Arithmetic.exact s currentTime = s.IsRateExceeded currentTime := by
  simp [Machine.IsRateExceeded, Machine.DeleteOldTimeStamps, OrderListener.IsRateExceeded,
    OrderListener.DeleteOldTimeStamps, machine_popOldTimeStamps_exact]

/-- With exact arithmetic `OnInsertOrderRequest` of the machine is the exact
one. -/
theorem machine_OnInsertOrderRequest_exact (s : OrderListener) (currentTime : ℚ)
    (id : Int) (side : Char) (price : ℚ) (quantity : Int) :
    Machine.OnInsertOrderRequest Arithmetic.exact s currentTime id side price quantity =
      s.OnInsertOrderRequest currentTime id side price quantity := by
  simp only [Machine.OnInsertOrderRequest, OrderListener.OnInsertOrderRequest,
    machine_UpdateRequestRate_exact]
  rfl

/-- With exact arithmetic `OnRequestAcknowledged` of the machine is the exact
one. -/
theorem machine_OnRequestAcknowledged_exact (s : OrderListener) (id : Int) :
    Machine.OnRequestAcknowledged Arithmetic.exact s id = s.OnRequestAcknowledged id := rfl

/-- With exact arithmetic `OnOrderFilled` of the machine is the exact one. -/
theorem machine_OnOrderFilled_exact (s : OrderListener) (id quantityFilled : Int) :
    Machine.OnOrderFilled Arithmetic.exact s id quantityFilled =
      s.OnOrderFilled id quantityFilled := rfl

/-- C2 in binary64 at the price 0.1: Insert(1, Bid, 0.1, 3), Ack(1) and the
fills 1, 1, 1, which are positive and sum to 3.  The price is the `double`
nearest to 1/10, the order is filled and removed and the net filled quantity
is 3, and the confirmed, minimum pending and maximum pending values of the bid
side are each left at `2^-55`, not at 0. -/
theorem C2_rounding_residue_at_one_tenth :
    Binary64.round (1 / 10) = 3602879701896397 / 36028797018963968 ∧
    UMap.find (Machine.OnOrderFilled Arithmetic.binary64
      (Machine.OnOrderFilled Arithmetic.binary64
        (Machine.OnOrderFilled Arithmetic.binary64
          (Machine.OnRequestAcknowledged Arithmetic.binary64
            (Machine.OnInsertOrderRequest Arithmetic.binary64 (OrderListener.ctor 2 3)
              0 1 BID_SIDE (Binary64.round (1 / 10)) 3).1 1).1 1 1).1 1 1).1 1
                1).1.mOrderMap 1 = none ∧
    (Machine.OnOrderFilled Arithmetic.binary64
      (Machine.OnOrderFilled Arithmetic.binary64
        (Machine.OnOrderFilled Arithmetic.binary64
          (Machine.OnRequestAcknowledged Arithmetic.binary64
            (Machine.OnInsertOrderRequest Arithmetic.binary64 (OrderListener.ctor 2 3)
              0 1 BID_SIDE (Binary64.round (1 / 10)) 3).1 1).1 1 1).1 1 1).1 1
                1).1.mNetFilledQuantity = 3 ∧
    (Machine.OnOrderFilled Arithmetic.binary64
      (Machine.OnOrderFilled Arithmetic.binary64
        (Machine.OnOrderFilled Arithmetic.binary64
          (Machine.OnRequestAcknowledged Arithmetic.binary64
            (Machine.OnInsertOrderRequest Arithmetic.binary64 (OrderListener.ctor 2 3)
              0 1 BID_SIDE (Binary64.round (1 / 10)) 3).1 1).1 1 1).1 1 1).1 1
                1).1.ConfirmedOrderValue BID_SIDE = 1 / 2 ^ 55 ∧
    (Machine.OnOrderFilled Arithmetic.binary64
      (Machine.OnOrderFilled Arithmetic.binary64
        (Machine.OnOrderFilled Arithmetic.binary64
          (Machine.OnRequestAcknowledged Arithmetic.binary64
            (Machine.OnInsertOrderRequest Arithmetic.binary64 (OrderListener.ctor 2 3)
              0 1 BID_SIDE (Binary64.round (1 / 10)) 3).1 1).1 1 1).1 1 1).1 1
                1).1.MinPendingOrderValue BID_SIDE = 1 / 2 ^ 55 ∧
    (Machine.OnOrderFilled Arithmetic.binary64
      (Machine.OnOrderFilled Arithmetic.binary64
        (Machine.OnOrderFilled Arithmetic.binary64
          (Machine.OnRequestAcknowledged Arithmetic.binary64
            (Machine.OnInsertOrderRequest Arithmetic.binary64 (OrderListener.ctor 2 3)
              0 1 BID_SIDE (Binary64.round (1 / 10)) 3).1 1).1 1 1).1 1 1).1 1
                1).1.MaxPendingOrderValue BID_SIDE = 1 / 2 ^ 55 ∧
    ¬ ((Machine.OnOrderFilled Arithmetic.binary64
      (Machine.OnOrderFilled Arithmetic.binary64
        (Machine.OnOrderFilled Arithmetic.binary64
          (Machine.OnRequestAcknowledged Arithmetic.binary64
            (Machine.OnInsertOrderRequest Arithmetic.binary64 (OrderListener.ctor 2 3)
              0 1 BID_SIDE (Binary64.round (1 / 10)) 3).1 1).1 1 1).1 1 1).1 1
                1).1.ConfirmedOrderValue BID_SIDE = 0) := by
  decide!

/-- The lifecycle of the specification, Insert(1, Bid, 10, 10), Ack(1),
Fill(1, 5), Fill(1, 5), in binary64: every value is a whole number, nothing is
rounded, and the three values of the bid side end at 0. -/
theorem full_lifecycle_example_in_binary64 :
    (Machine.OnOrderFilled Arithmetic.binary64
      (Machine.OnOrderFilled Arithmetic.binary64
        (Machine.OnRequestAcknowledged Arithmetic.binary64
          (Machine.OnInsertOrderRequest Arithmetic.binary64 (OrderListener.ctor 2 3)
            0 1 BID_SIDE 10 10).1 1).1 1 5).1 1 5).1.ConfirmedOrderValue BID_SIDE = 0 ∧
    (Machine.OnOrderFilled Arithmetic.binary64
      (Machine.OnOrderFilled Arithmetic.binary64
        (Machine.OnRequestAcknowledged Arithmetic.binary64
          (Machine.OnInsertOrderRequest Arithmetic.binary64 (OrderListener.ctor 2 3)
            0 1 BID_SIDE 10 10).1 1).1 1 5).1 1 5).1.MinPendingOrderValue BID_SIDE = 0 ∧
    (Machine.OnOrderFilled Arithmetic.binary64
      (Machine.OnOrderFilled Arithmetic.binary64
        (Machine.OnRequestAcknowledged Arithmetic.binary64
          (Machine.OnInsertOrderRequest Arithmetic.binary64 (OrderListener.ctor 2 3)
            0 1 BID_SIDE 10 10).1 1).1 1 5).1 1 5).1.MaxPendingOrderValue BID_SIDE = 0 := by
  decide!

/-- C6 in binary64 with window 1 and a period of 10^7 seconds, on a clock that
ticks in nanoseconds: submissions at the ticks 0 and 1, `IsRateExceeded` at the
tick 10^16 + 1.  The first submission is 10^7 seconds and one nanosecond old,
which is more than the period, and the second is exactly 10^7 seconds old, so
one submission is at most `Y` seconds old and the claim has the answer false.
The conversion of 10^16 + 1 ticks to `double` gives 10^16, the elapsed time of
the first submission is computed as 10^7 seconds, the entry is kept, and the
answer is true. -/
theorem C6_older_entry_kept_in_binary64 :
    ((10000000000000001 - 0 : ℚ) / 1000000000 > ((10000000 : Int) : ℚ)) ∧
    ((10000000000000001 - 1 : ℚ) / 1000000000 ≤ ((10000000 : Int) : ℚ)) ∧
    Binary64.round (10000000000000001 - 0) = 10000000000000000 ∧
    (Machine.IsRateExceeded Arithmetic.binary64
      (Machine.OnInsertOrderRequest Arithmetic.binary64
        (Machine.OnInsertOrderRequest Arithmetic.binary64 (OrderListener.ctor 1 10000000)
          0 1 BID_SIDE 10 10).1 1 2 BID_SIDE 10 10).1
      10000000000000001).1.mOrderTimeQueue = [0, 1] ∧
    (Machine.IsRateExceeded Arithmetic.binary64
      (Machine.OnInsertOrderRequest Arithmetic.binary64
        (Machine.OnInsertOrderRequest Arithmetic.binary64 (OrderListener.ctor 1 10000000)
          0 1 BID_SIDE 10 10).1 1 2 BID_SIDE 10 10).1
      10000000000000001).2 = true ∧
    (((OrderListener.ctor 1 10000000).OnInsertOrderRequest
        0 1 BID_SIDE 10 10).1.OnInsertOrderRequest (1 / 1000000000) 2 BID_SIDE 10
          10).1.IsRateExceeded (10000000000000001 / 1000000000) =
      ({ OrderListener.ctor 1 10000000 with
          mOrderTimeQueue := [1 / 1000000000]
          mOrderMap := [(1, Order.mk 10 1 10 BID_SIDE), (2, Order.mk 10 2 10 BID_SIDE)]
          mMaxBidPendingOrderValue := 200 }, false) := by
  decide!

end SimpleOrderBook

/-! ## Crack-free walls: the test for a running crack -/

namespace CrackFreeWalls

/-- The loop of `IsHavingCrack` returns the same value for any number of
iterations it is allowed that is at least the sum of the two lengths: it ends
before it runs out of them. -/
theorem IsHavingCrack.loop_fuel :
    ∀ (fuel1 fuel2 : Nat) (l1 l2 : List Int),
      l1.length + l2.length ≤ fuel1 → l1.length + l2.length ≤ fuel2 →
      IsHavingCrack.loop fuel1 l1 l2 = IsHavingCrack.loop fuel2 l1 l2 := by
  intro fuel1
  induction fuel1 with
  | zero =>
    intro fuel2 l1 l2 h1 _
    have hl1 : l1 = [] := List.eq_nil_of_length_eq_zero (by omega)
    subst hl1
    cases fuel2 <;> simp [IsHavingCrack.loop]
  | succ n ih =>
    intro fuel2 l1 l2 h1 h2
    cases l1 with
    | nil => cases fuel2 <;> simp [IsHavingCrack.loop]
    | cons a rest1 =>
      cases l2 with
      | nil => cases fuel2 <;> simp [IsHavingCrack.loop]
      | cons b rest2 =>
        cases fuel2 with
        | zero => simp at h2
        | succ m =>
          simp only [List.length_cons] at h1 h2
          simp only [IsHavingCrack.loop]
          split_ifs
          · exact ih m rest1 (b :: rest2) (by simp; omega) (by simp; omega)
          · exact ih m (a :: rest1) rest2 (by simp; omega) (by simp; omega)
          · rfl

/-- On two strictly increasing lists the loop finds a position exactly when
there is one in both. -/
theorem IsHavingCrack.loop_iff :
    ∀ (fuel : Nat) (l1 l2 : List Int),
      l1.length + l2.length ≤ fuel →
      l1.Pairwise (fun a b => a < b) → l2.Pairwise (fun a b => a < b) →
      (IsHavingCrack.loop fuel l1 l2 = true ↔ ∃ x, x ∈ l1 ∧ x ∈ l2) := by
  intro fuel
  induction fuel with
  | zero =>
    intro l1 l2 h _ _
    have hl1 : l1 = [] := List.eq_nil_of_length_eq_zero (by omega)
    subst hl1
    simp [IsHavingCrack.loop]
  | succ n ih =>
    intro l1 l2 h hs1 hs2
    cases l1 with
    | nil => simp [IsHavingCrack.loop]
    | cons a rest1 =>
      cases l2 with
      | nil => simp [IsHavingCrack.loop]
      | cons b rest2 =>
        simp only [List.length_cons] at h
        have ha := (List.pairwise_cons.mp hs1).1
        have hb := (List.pairwise_cons.mp hs2).1
        have hr1 := (List.pairwise_cons.mp hs1).2
        have hr2 := (List.pairwise_cons.mp hs2).2
        simp only [IsHavingCrack.loop]
        by_cases hab : a < b
        · rw [if_pos hab, ih rest1 (b :: rest2) (by simp; omega) hr1 hs2]
          constructor
          · rintro ⟨x, hx1, hx2⟩
            exact ⟨x, List.mem_cons_of_mem _ hx1, hx2⟩
          · rintro ⟨x, hx1, hx2⟩
            rcases List.mem_cons.mp hx1 with hxa | hx1'
            · exfalso
              rcases List.mem_cons.mp hx2 with hxb | hx2'
              · omega
              · have := hb x hx2'
                omega
            · exact ⟨x, hx1', hx2⟩
        · rw [if_neg hab]
          by_cases hba : b < a
          · rw [if_pos hba, ih (a :: rest1) rest2 (by simp; omega) hs1 hr2]
            constructor
            · rintro ⟨x, hx1, hx2⟩
              exact ⟨x, hx1, List.mem_cons_of_mem _ hx2⟩
            · rintro ⟨x, hx1, hx2⟩
              rcases List.mem_cons.mp hx2 with hxb | hx2'
              · exfalso
                rcases List.mem_cons.mp hx1 with hxa | hx1'
                · omega
                · have := ha x hx1'
                  omega
              · exact ⟨x, hx1, hx2'⟩
          · rw [if_neg hba]
            have hab' : a = b := by omega
            simp [hab']

/-- The loop treats its two lists alike. -/
theorem IsHavingCrack.loop_comm :
    ∀ (fuel : Nat) (l1 l2 : List Int),
      IsHavingCrack.loop fuel l1 l2 = IsHavingCrack.loop fuel l2 l1 := by
  intro fuel
  induction fuel with
  | zero => intro l1 l2; simp [IsHavingCrack.loop]
  | succ n ih =>
    intro l1 l2
    cases l1 with
    | nil => cases l2 <;> simp [IsHavingCrack.loop]
    | cons a rest1 =>
      cases l2 with
      | nil => simp [IsHavingCrack.loop]
      | cons b rest2 =>
        simp only [IsHavingCrack.loop]
        by_cases hab : a < b
        · have hba : ¬ b < a := by omega
          rw [if_pos hab, if_neg hba, if_pos hab]
          exact ih rest1 (b :: rest2)
        · by_cases hba : b < a
          · rw [if_neg hab, if_pos hba, if_pos hba]
            exact ih (a :: rest1) rest2
          · rw [if_neg hab, if_neg hba, if_neg hba, if_neg hab]

/-- C18. For two strictly increasing lists of positions, either of which may be
empty, `IsHavingCrack` returns true exactly when some position occurs in both,
and it returns the same value with its two arguments exchanged. -/
theorem C18_IsHavingCrack_iff_common_position (layerPos1 layerPos2 : List Int)
    (h1 : layerPos1.Pairwise (fun a b => a < b))
    (h2 : layerPos2.Pairwise (fun a b => a < b)) :
    (IsHavingCrack layerPos1 layerPos2 = true ↔ ∃ x, x ∈ layerPos1 ∧ x ∈ layerPos2) ∧
    IsHavingCrack layerPos1 layerPos2 = IsHavingCrack layerPos2 layerPos1 := by
  constructor
  · exact IsHavingCrack.loop_iff _ layerPos1 layerPos2 (le_refl _) h1 h2
  · unfold IsHavingCrack
    rw [IsHavingCrack.loop_comm, Nat.add_comm]

/-- C18 on two layers of the wall of width 9, which share the position 7. -/
theorem C18_IsHavingCrack_iff_common_position_witness :
    (IsHavingCrack [3, 5, 7] [2, 4, 7] = true ↔
      ∃ x : Int, x ∈ ([3, 5, 7] : List Int) ∧ x ∈ ([2, 4, 7] : List Int)) ∧
    IsHavingCrack [3, 5, 7] [2, 4, 7] = IsHavingCrack [2, 4, 7] [3, 5, 7] :=
  C18_IsHavingCrack_iff_common_position [3, 5, 7] [2, 4, 7] (by decide) (by decide)

/-! ## Crack-free walls: evaluations -/

/-- C16. For width 9 and height 3, `Calculate` on the layers of
`GenerateAllPossibleLayers(9)` and the table filled by
`GenerateCompatibleLayers` from an empty vector returns 8, which is
`W(9, 3)`. -/
theorem C16_wall_9_3_is_8 :
    Calculate (GenerateAllPossibleLayers 9) 3
      (GenerateCompatibleLayers (GenerateAllPossibleLayers 9) []) = some 8 ∧
    crackFreeWallCount 9 3 = some 8 ∧
    W 9 3 = 8 := by
  decide!

/-- C17 at width 2 and width 3 with height 2: the program returns 0, and there
is one crack-free wall, the one brick of a layer on top of the one brick of the
other. -/
theorem C17_narrow_walls_counted_as_none :
    GenerateAllPossibleLayers 2 = [[2]] ∧
    GenerateCompatibleLayers (GenerateAllPossibleLayers 2) [] = [[]] ∧
    crackFreeWallCount 2 2 = some 0 ∧ W 2 2 = 1 ∧
    crackFreeWallCount 3 2 = some 0 ∧ W 3 2 = 1 := by
  decide!

end CrackFreeWalls

/-! ## Crack-free walls: the count of `Calculate` -/

namespace CrackFreeWalls

theorem Calculate.addAt_length :
    ∀ (row : List Nat) (j v : Nat), (Calculate.addAt row j v).length = row.length := by
  intro row
  induction row with
  | nil => intro j v; rfl
  | cons x xs ih =>
    intro j v
    cases j with
    | zero => simp [Calculate.addAt]
    | succ j => simp [Calculate.addAt, ih]

theorem Calculate.addAt_getD :
    ∀ (row : List Nat) (j v k : Nat), k < row.length →
      (Calculate.addAt row j v).getD k 0 =
        if k = j then (row.getD k 0 + v) % 2 ^ 64 else row.getD k 0 := by
  intro row
  induction row with
  | nil => intro j v k hk; simp at hk
  | cons x xs ih =>
    intro j v k hk
    cases j with
    | zero =>
      cases k with
      | zero => simp [Calculate.addAt]
      | succ k => simp [Calculate.addAt]
    | succ j =>
      cases k with
      | zero => simp [Calculate.addAt]
      | succ k =>
        simp only [List.length_cons, Nat.succ_lt_succ_iff] at hk
        simp only [Calculate.addAt, List.getD_cons_succ, ih j v k hk, Nat.succ_inj']

/-- The loop over an entry of the table adds `v` to a cell once for every
occurrence of its index. -/
theorem Calculate.addAll :
    ∀ (js : List Nat) (row : List Nat) (v : Nat),
      (js.foldl (fun row j => Calculate.addAt row j v) row).length = row.length ∧
      ∀ k, k < row.length →
        (js.foldl (fun row j => Calculate.addAt row j v) row).getD k 0 % 2 ^ 64 =
          (row.getD k 0 + v * js.count k) % 2 ^ 64 := by
  intro js
  induction js with
  | nil => intro row v; simp
  | cons j js ih =>
    intro row v
    obtain ⟨hlen, hget⟩ := ih (Calculate.addAt row j v) v
    rw [Calculate.addAt_length] at hlen hget
    refine ⟨by simpa using hlen, ?_⟩
    intro k hk
    simp only [List.foldl_cons]
    rw [hget k hk, Calculate.addAt_getD row j v k hk, List.count_cons]
    by_cases hkj : k = j
    · subst hkj
      simp only [if_true, beq_self_eq_true]
      rw [Nat.add_mod, Nat.mod_mod, ← Nat.add_mod]
      congr 1
      ring
    · have hjk : (j == k) = false := by
        simp only [beq_eq_false_iff_ne, ne_eq]
        exact fun h => hkj h.symm
      simp [hkj, hjk]

/-- The loop of `Calculate` over the cells of the layer under. -/
theorem Calculate.fillRow_getD (layerUnder : List Nat) (compatibleLayers : List (List Nat))
    (row : List Nat) :
    ∀ m : Nat,
      ((List.range m).foldl
        (fun row i =>
          if layerUnder.getD i 0 > 0 then
            (compatibleLayers.getD i []).foldl
              (fun row j => Calculate.addAt row j (layerUnder.getD i 0)) row
          else row) row).length = row.length ∧
      ∀ k, k < row.length →
        ((List.range m).foldl
          (fun row i =>
            if layerUnder.getD i 0 > 0 then
              (compatibleLayers.getD i []).foldl
                (fun row j => Calculate.addAt row j (layerUnder.getD i 0)) row
            else row) row).getD k 0 % 2 ^ 64 =
          (row.getD k 0 + ∑ i ∈ Finset.range m,
            layerUnder.getD i 0 * (compatibleLayers.getD i []).count k) % 2 ^ 64 := by
  intro m
  induction m with
  | zero => simp
  | succ m ih =>
    obtain ⟨hlen, hget⟩ := ih
    rw [List.range_succ, List.foldl_append]
    simp only [List.foldl_cons, List.foldl_nil, Finset.sum_range_succ]
    by_cases hpos : layerUnder.getD m 0 > 0
    · rw [if_pos hpos]
      obtain ⟨hlen2, hget2⟩ := Calculate.addAll (compatibleLayers.getD m []) _
        (layerUnder.getD m 0)
      refine ⟨hlen2.trans hlen, ?_⟩
      intro k hk
      rw [hget2 k (by rw [hlen]; exact hk), Nat.add_mod, hget k hk, ← Nat.add_mod]
      congr 1
      ring
    · rw [if_neg hpos]
      have hzero : layerUnder.getD m 0 = 0 := by omega
      refine ⟨hlen, ?_⟩
      intro k hk
      rw [hget k hk, hzero]
      simp

theorem getD_replicate_of_lt (n x k : Nat) (h : k < n) :
    (List.replicate n x).getD k 0 = x := by
  rw [List.getD_eq_getElem?_getD, List.getElem?_replicate]
  simp [h]

/-- Every cell of `layers[h]` is, modulo `2^64`, the number of chains of `h + 1`
layer indices that end at its index. -/
theorem Calculate.row_getD (size : Nat) (compatibleLayers : List (List Nat)) :
    ∀ h : Nat,
      (Calculate.row size compatibleLayers h).length = size ∧
      ∀ k, k < size →
        (Calculate.row size compatibleLayers h).getD k 0 % 2 ^ 64 =
          chainsTo size compatibleLayers h k % 2 ^ 64 := by
  intro h
  induction h with
  | zero =>
    refine ⟨by simp [Calculate.row], ?_⟩
    intro k hk
    rw [Calculate.row, getD_replicate_of_lt _ _ _ hk]
    simp [chainsTo]
  | succ h ih =>
    obtain ⟨hlen, hget⟩ := ih
    obtain ⟨hlen2, hget2⟩ := Calculate.fillRow_getD (Calculate.row size compatibleLayers h)
      compatibleLayers (List.replicate size 0) (Calculate.row size compatibleLayers h).length
    simp only [List.length_replicate] at hlen2 hget2
    refine ⟨hlen2, ?_⟩
    intro k hk
    simp only [Calculate.row, Calculate.fillRow, chainsTo]
    rw [hget2 k hk, hlen]
    rw [getD_replicate_of_lt _ _ _ hk, zero_add]
    rw [Finset.sum_nat_mod]
    conv_rhs => rw [Finset.sum_nat_mod]
    congr 1
    apply Finset.sum_congr rfl
    intro i hi
    rw [Nat.mul_mod, hget i (Finset.mem_range.mp hi), ← Nat.mul_mod]

end CrackFreeWalls

namespace CrackFreeWalls

/-- The loop of `Calculate` that adds up the last layer. -/
theorem Calculate.sum_loop :
    ∀ (l : List Nat) (a : Nat), a < 2 ^ 64 →
      l.foldl (fun sum i => (sum + i) % 2 ^ 64) a = (a + l.sum) % 2 ^ 64 := by
  intro l
  induction l with
  | nil =>
    intro a ha
    rw [List.foldl_nil, List.sum_nil, Nat.add_zero]
    exact (Nat.mod_eq_of_lt ha).symm
  | cons x xs ih =>
    intro a _
    simp only [List.foldl_cons, List.sum_cons]
    rw [ih _ (Nat.mod_lt _ (by norm_num)), Nat.add_mod, Nat.mod_mod, ← Nat.add_mod]
    congr 1
    ring

theorem list_sum_eq_sum_getD :
    ∀ l : List Nat, l.sum = ∑ k ∈ Finset.range l.length, l.getD k 0 := by
  intro l
  induction l with
  | nil => simp
  | cons x xs ih =>
    rw [List.length_cons, Finset.sum_range_succ', List.sum_cons, ih]
    simp [add_comm]

theorem sum_map_range (f : Nat → Nat) :
    ∀ n : Nat, ((List.range n).map f).sum = ∑ i ∈ Finset.range n, f i := by
  intro n
  induction n with
  | zero => simp
  | succ n ih =>
    rw [List.range_succ, List.map_append, List.sum_append, ih, Finset.sum_range_succ]
    simp

theorem sum_map_flatMap {α β : Type} (f : α → List β) (g : β → Nat) :
    ∀ l : List α, ((l.flatMap f).map g).sum = (l.map (fun a => ((f a).map g).sum)).sum := by
  intro l
  induction l with
  | nil => simp
  | cons a rest ih =>
    simp only [List.flatMap_cons, List.map_append, List.sum_append, List.map_cons,
      List.sum_cons, ih]

/-- The sequences of `h + 1` layer indices that start with `i` have total weight
`chainsFrom h i`. -/
theorem sum_chainWeight_cons (n : Nat) (compatibleLayers : List (List Nat)) :
    ∀ (h i : Nat),
      ((indexSequences n h).map (fun s => chainWeight compatibleLayers (i :: s))).sum =
        chainsFrom n compatibleLayers h i := by
  intro h
  induction h with
  | zero => intro i; simp [indexSequences, chainWeight, chainsFrom]
  | succ h ih =>
    intro i
    simp only [indexSequences, chainsFrom]
    rw [sum_map_flatMap, sum_map_range]
    apply Finset.sum_congr rfl
    intro j _
    rw [List.map_map, ← ih j, ← List.sum_map_mul_left]
    congr 1

/-- The sequences of `h + 1` layer indices have total weight the sum of
`chainsFrom h` over the first index. -/
theorem countChains_succ (n : Nat) (compatibleLayers : List (List Nat)) (h : Nat) :
    countChains n compatibleLayers (h + 1) =
      ∑ i ∈ Finset.range n, chainsFrom n compatibleLayers h i := by
  simp only [countChains, indexSequences]
  rw [sum_map_flatMap, sum_map_range]
  apply Finset.sum_congr rfl
  intro i _
  rw [List.map_map, ← sum_chainWeight_cons n compatibleLayers h i]
  congr 1

/-- Counting the chains by their last index or by their first index gives the
same total. -/
theorem sum_chainsTo_mul_chainsFrom (n : Nat) (compatibleLayers : List (List Nat)) :
    ∀ (h k : Nat),
      ∑ j ∈ Finset.range n,
          chainsTo n compatibleLayers h j * chainsFrom n compatibleLayers k j =
        ∑ j ∈ Finset.range n, chainsFrom n compatibleLayers (h + k) j := by
  intro h
  induction h with
  | zero => intro k; simp [chainsTo]
  | succ h ih =>
    intro k
    have hstep : ∑ j ∈ Finset.range n,
        chainsTo n compatibleLayers (h + 1) j * chainsFrom n compatibleLayers k j =
        ∑ i ∈ Finset.range n,
          chainsTo n compatibleLayers h i * chainsFrom n compatibleLayers (k + 1) i := by
      simp only [chainsTo, chainsFrom, Finset.sum_mul, Finset.mul_sum]
      rw [Finset.sum_comm]
      apply Finset.sum_congr rfl
      intro i _
      apply Finset.sum_congr rfl
      intro j _
      ring
    have hshift : h + (k + 1) = h + 1 + k := by omega
    rw [hstep, ih (k + 1), hshift]

theorem sum_chainsTo (n : Nat) (compatibleLayers : List (List Nat)) (h : Nat) :
    ∑ j ∈ Finset.range n, chainsTo n compatibleLayers h j =
      countChains n compatibleLayers (h + 1) := by
  rw [countChains_succ]
  have := sum_chainsTo_mul_chainsFrom n compatibleLayers h 0
  simpa [chainsFrom] using this

theorem countChains_one (n : Nat) (compatibleLayers : List (List Nat)) :
    countChains n compatibleLayers 1 = n := by
  rw [countChains_succ]
  simp [chainsFrom]

/-- C19. For a list of `n` layers, a compatibility table of `n` index lists with
entries below `n` and a height of at least 1, `Calculate` returns, modulo
`2^64`, the number of sequences of `height` layer indices below `n` in which
every index occurs in the entry of its predecessor in the table, counted with
multiplicity; for height 1 that number is `n`. -/
theorem C19_Calculate_counts_chains (allLayers : List (List Int))
    (compatibleLayers : List (List Nat)) (height : Nat)
    (_hsize : compatibleLayers.length = allLayers.length)
    (_hentries : ∀ entry ∈ compatibleLayers, ∀ j ∈ entry, j < allLayers.length)
    (hheight : 1 ≤ height) :
    Calculate allLayers height compatibleLayers =
      some (countChains allLayers.length compatibleLayers height % 2 ^ 64) ∧
    countChains allLayers.length compatibleLayers 1 = allLayers.length := by
  refine ⟨?_, countChains_one _ _⟩
  obtain ⟨h, rfl⟩ : ∃ h, height = h + 1 := ⟨height - 1, by omega⟩
  obtain ⟨hlen, hget⟩ := Calculate.row_getD allLayers.length compatibleLayers h
  simp only [Calculate, Nat.add_one_ne_zero, if_false, Nat.add_sub_cancel, Option.some.injEq]
  rw [Calculate.sum_loop _ 0 (by norm_num), zero_add, list_sum_eq_sum_getD, hlen,
    ← sum_chainsTo, Finset.sum_nat_mod]
  conv_rhs => rw [Finset.sum_nat_mod]
  congr 1
  apply Finset.sum_congr rfl
  intro k hk
  exact hget k (Finset.mem_range.mp hk)

/-- C19 on the five layers of the wall of width 9 and their compatibility
table, for height 3. -/
theorem C19_Calculate_counts_chains_witness :
    Calculate [[3, 5, 7], [2, 5, 7], [2, 4, 7], [2, 4, 6], [3, 6]] 3
        [[3], [4], [4], [0], [1, 2]] =
      some (countChains
        ([[3, 5, 7], [2, 5, 7], [2, 4, 7], [2, 4, 6], [3, 6]] : List (List Int)).length
        [[3], [4], [4], [0], [1, 2]] 3 % 2 ^ 64) :=
  (C19_Calculate_counts_chains [[3, 5, 7], [2, 5, 7], [2, 4, 7], [2, 4, 6], [3, 6]]
    [[3], [4], [4], [0], [1, 2]] 3 (by decide) (by decide) (by decide)).1

end CrackFreeWalls
